import Mathlib

/-!
# Blog backend: the in-memory store and its HTTP handlers

A shallow embedding of `src/src/models/Models.h`, `src/src/controllers/Controllers.h`
and `src/src/controllers/Controllers.cpp`.

Modelling conventions.

* `std::string` is a Lean `String`.  The only character-level code in the program is the
  slug derivation, which applies `std::tolower` (in the default "C" locale) and
  `std::replace` to every `char`.  Both act on ASCII bytes only, and the bytes of a
  multi-byte UTF-8 sequence are all at least `0x80`, so acting on the characters of the
  string is the same as acting on its bytes.
* `int` is `Int`.  Signed overflow is undefined behaviour in C++: a handler that would
  execute `counter++` with `counter = INT_MAX` has no defined result, and the model then
  returns `none`.  The same holds for dereferencing a null `shared_ptr`.
* `std::vector<T>` is `List T`; `push_back` appends at the end.
* The store is a process-wide singleton guarded by one mutex which every handler holds
  while it touches the store; the model is the sequential one, each handler being a
  function from the store to a response and the next store.
* A request body is `Option JsonObject`: `none` when `req->getJsonObject()` is null.
  The members of a `JsonObject` are typed as the attributes of the data model are
  (strings, and a list of strings for `tags`); a member is absent (`none`) or present.
* A member may also hold a value that `asString()` cannot convert (an array or an
  object); `asString()` then throws.  The three creating handlers increment their counter
  before they read the member, so such a request consumes an id and appends nothing.
  `JsonObject` has no such member; these requests are the definitions
  `createPostThrows`, `createCategoryThrows` and `createCommentThrows`, each with its
  own `Call`.  In the other handlers a throwing read adds no element and moves no
  counter; those requests are not part of the model.
-/

namespace models

/-- The record `models::User` of `Models.h`. -/
structure User where
  id : Int
  username : String
  email : String
  password_hash : String
  role : String
  bio : String
deriving DecidableEq

/-- The record `models::Post` of `Models.h`; `views` and `likes` have initialiser `0`. -/
structure Post where
  id : Int
  author_id : Int
  title : String
  slug : String
  content : String
  is_published : Bool
  created_at : String
  tags : List String
  category_id : Int
  views : Int := 0
  likes : Int := 0
deriving DecidableEq

/-- The record `models::Comment` of `Models.h`. -/
structure Comment where
  id : Int
  post_id : Int
  user_id : Int
  content : String
  likes : Int := 0
  is_reported : Bool := false
deriving DecidableEq

/-- The record `models::Category` of `Models.h`. -/
structure Category where
  id : Int
  name : String
deriving DecidableEq

end models

namespace api

open models

/-- The largest value of a 32-bit `int`. -/
def INT_MAX : Int := 2147483647

/-- The class `DataStore` of `Controllers.h` without its mutex. -/
structure DataStore where
  users : List User := []
  posts : List Post := []
  categories : List Category := []
  comments : List Comment := []
  nextUserId : Int := 1
  nextPostId : Int := 1
  nextCategoryId : Int := 1
  nextCommentId : Int := 1
deriving DecidableEq

/-- The store as `static DataStore instance;` constructs it. -/
def DataStore.initial : DataStore := {}

/-- The members of a request body that the handlers read. -/
structure JsonObject where
  email : Option String := none
  password : Option String := none
  title : Option String := none
  content : Option String := none
  tags : Option (List String) := none
  name : Option String := none
  bio : Option String := none
deriving DecidableEq

/-- The call `json.isMember(key)` for the member held in `m`. -/
def isMember {α : Type} (m : Option α) : Bool := m.isSome

/-- The call `json[key].asString()`: an absent member reads as the null value, whose
string form is empty. -/
def asString (m : Option String) : String :=
  match m with
  | none => ""
  | some v => v

/-- One element of the array under `"posts"` in the response of `getPosts`. -/
structure PostItem where
  id : Int
  title : String
  slug : String
deriving DecidableEq

/-- One element of the array under `"categories"`. -/
structure CategoryItem where
  id : Int
  name : String
deriving DecidableEq

/-- One element of the array under `"comments"`. -/
structure CommentItem where
  id : Int
  user_id : Int
  content : String
deriving DecidableEq

/-- The bodies the handlers send, one constructor per shape of JSON object. -/
inductive Body where
  | noBody
  | registered (status : String) (userId : Int)
  | token (token : String)
  | identity (id : Int) (role : String)
  | posts (posts : List PostItem)
  | postCreated (id : Int) (slug : String)
  | post (id : Int) (title : String) (content : String) (views : Int)
  | statusId (status : String) (id : Int)
  | status (status : String)
  | categories (categories : List CategoryItem)
  | category (id : Int) (name : String)
  | comments (comments : List CommentItem)
  | commentCreated (id : Int) (post_id : Int)
  | user (id : Int) (username : String) (role : String) (bio : String)
deriving DecidableEq

/-- A response: status code and body. -/
structure HttpResponse where
  status : Nat
  body : Body
deriving DecidableEq

def k200OK : Nat := 200
def k400BadRequest : Nat := 400
def k404NotFound : Nat := 404
def k500InternalServerError : Nat := 500

/-- The call `drogon::HttpResponse::newHttpJsonResponse(v)`. -/
def newHttpJsonResponse (v : Body) : HttpResponse := ⟨k200OK, v⟩

/-- The call `drogon::HttpResponse::newHttpResponse()` followed by `setStatusCode(code)`. -/
def newHttpResponse (code : Nat) : HttpResponse := ⟨code, Body.noBody⟩

/-! ## AuthController -/

/-- The handler `AuthController::registerUser`. -/
def AuthController.registerUser (json : Option JsonObject) (s : DataStore) :
    Option (HttpResponse × DataStore) :=
  match json with
  | none => some (newHttpResponse k400BadRequest, s)
  | some j =>
    let email := asString j.email
    let password := asString j.password
    if s.nextUserId = INT_MAX then none
    else
      let s1 : DataStore :=
        { s with
          users := s.users ++ [⟨s.nextUserId, "user", email, password, "author", ""⟩]
          nextUserId := s.nextUserId + 1 }
      some (newHttpJsonResponse (Body.registered "registered" (s1.nextUserId - 1)), s1)

/-- The handler `AuthController::login`. -/
def AuthController.login (s : DataStore) : HttpResponse × DataStore :=
  (newHttpJsonResponse (Body.token "fake-jwt-token-123"), s)

/-- The handler `AuthController::me`. -/
def AuthController.me (s : DataStore) : HttpResponse × DataStore :=
  (newHttpJsonResponse (Body.identity 1 "admin"), s)

/-! ## PostController -/

/-- The loop of `PostController::getPosts`: `arr` grows by one item per published post. -/
def PostController.getPostsLoop (arr : List PostItem) : List Post → List PostItem
  | [] => arr
  | p :: ps =>
    if p.is_published then PostController.getPostsLoop (arr ++ [⟨p.id, p.title, p.slug⟩]) ps
    else PostController.getPostsLoop arr ps

/-- The handler `PostController::getPosts`. -/
def PostController.getPosts (s : DataStore) : HttpResponse × DataStore :=
  (newHttpJsonResponse (Body.posts (PostController.getPostsLoop [] s.posts)), s)

/-- The function `std::tolower` on a `char`, in the "C" locale. -/
def tolower (c : Char) : Char :=
  if 'A' ≤ c ∧ c ≤ 'Z' then Char.ofNat (c.toNat + 32) else c

/-- The call `std::transform(s.begin(), s.end(), s.begin(), f)`. -/
def std_transform (f : Char → Char) (s : String) : String := ⟨s.data.map f⟩

/-- The call `std::replace(s.begin(), s.end(), old_value, new_value)`. -/
def std_replace (s : String) (old_value new_value : Char) : String :=
  ⟨s.data.map (fun c => if c = old_value then new_value else c)⟩

/-- The slug generation of `PostController::createPost` (lines 72-76). -/
def slugify (title : String) : String :=
  std_replace (std_transform tolower title) ' ' '-'

/-- The values held by the members of a `models::Post p;` that have no initialiser and
that `createPost` never assigns. -/
structure Indeterminate where
  author_id : Int
  category_id : Int
deriving DecidableEq

/-- The handler `PostController::createPost`.  There is no check of the body: a null
`json` is dereferenced. -/
def PostController.createPost (u : Indeterminate) (json : Option JsonObject) (s : DataStore) :
    Option (HttpResponse × DataStore) :=
  if s.nextPostId = INT_MAX then none
  else
    match json with
    | none => none
    | some j =>
      let p : Post :=
        { id := s.nextPostId
          author_id := u.author_id
          title := asString j.title
          slug := slugify (asString j.title)
          content := asString j.content
          is_published := false
          created_at := ""
          tags := []
          category_id := u.category_id }
      let s1 : DataStore := { s with posts := s.posts ++ [p], nextPostId := s.nextPostId + 1 }
      some (newHttpJsonResponse (Body.postCreated p.id p.slug), s1)

/-- The handler `PostController::createPost` on a body whose `title` or `content` holds
a value that `asString()` cannot convert, such as an array.  Line 67 has incremented
`nextPostId` when the read at line 68 or 69 throws; the post `p` is a local, the
`push_back` at line 80 is not reached, the lock is released by the unwinding, and the
framework answers the uncaught exception with status 500. -/
def PostController.createPostThrows (s : DataStore) : Option (HttpResponse × DataStore) :=
  if s.nextPostId = INT_MAX then none
  else some (newHttpResponse k500InternalServerError,
    { s with nextPostId := s.nextPostId + 1 })

/-- The loop of `PostController::getPost`: the first post whose slug is `slug`. -/
def PostController.getPostLoop (slug : String) : List Post → Option Post
  | [] => none
  | p :: ps => if p.slug = slug then some p else PostController.getPostLoop slug ps

/-- The handler `PostController::getPost`. -/
def PostController.getPost (slug : String) (s : DataStore) : HttpResponse × DataStore :=
  match PostController.getPostLoop slug s.posts with
  | some p => (newHttpJsonResponse (Body.post p.id p.title p.content p.views), s)
  | none => (newHttpResponse k404NotFound, s)

/-- The inner loop of `updatePost`: `tags.push_back(t.asString())` for each element. -/
def PostController.pushTags (tags : List String) : List String → List String
  | [] => tags
  | t :: ts => PostController.pushTags (tags ++ [t]) ts

/-- The three assignments of `PostController::updatePost` (lines 118-123). -/
def PostController.applyUpdate (j : JsonObject) (p : Post) : Post :=
  let p1 : Post := if isMember j.title then { p with title := asString j.title } else p
  let p2 : Post := if isMember j.content then { p1 with content := asString j.content } else p1
  match j.tags with
  | some ts => { p2 with tags := PostController.pushTags [] ts }
  | none => p2

/-- The loop of `PostController::updatePost`: the posts after the update of the first
post whose id is `id`, or `none` when the loop ends without a match. -/
def PostController.updatePostLoop (j : JsonObject) (id : Int) : List Post → Option (List Post)
  | [] => none
  | p :: ps =>
    if p.id = id then some (PostController.applyUpdate j p :: ps)
    else
      match PostController.updatePostLoop j id ps with
      | some ps1 => some (p :: ps1)
      | none => none

/-- The handler `PostController::updatePost`. -/
def PostController.updatePost (json : Option JsonObject) (id : Int) (s : DataStore) :
    HttpResponse × DataStore :=
  match json with
  | none => (newHttpResponse k400BadRequest, s)
  | some j =>
    match PostController.updatePostLoop j id s.posts with
    | some ps => (newHttpJsonResponse (Body.statusId "updated" id), { s with posts := ps })
    | none => (newHttpResponse k404NotFound, s)

/-- The call `std::remove_if(v.begin(), v.end(), pred)`: the elements that are kept, in
their order; they fill the range from `begin()` to the returned iterator. -/
def std_remove_if {α : Type} (pred : α → Bool) : List α → List α
  | [] => []
  | x :: xs => if pred x then std_remove_if pred xs else x :: std_remove_if pred xs

/-- The handler `PostController::deletePost`.  The returned iterator differs from
`posts.end()` exactly when fewer elements are kept than there were. -/
def PostController.deletePost (id : Int) (s : DataStore) : HttpResponse × DataStore :=
  let kept := std_remove_if (fun p : Post => decide (p.id = id)) s.posts
  if kept.length ≠ s.posts.length then
    (newHttpJsonResponse (Body.status "deleted"), { s with posts := kept })
  else (newHttpResponse k404NotFound, s)

/-- The loop of `PostController::publish`: the posts after the first post whose id is `id`
has been marked as published, or `none` when the loop ends without a match. -/
def PostController.publishLoop (id : Int) : List Post → Option (List Post)
  | [] => none
  | p :: ps =>
    if p.id = id then some ({ p with is_published := true } :: ps)
    else
      match PostController.publishLoop id ps with
      | some ps1 => some (p :: ps1)
      | none => none

/-- The handler `PostController::publish`. -/
def PostController.publish (id : Int) (s : DataStore) : HttpResponse × DataStore :=
  match PostController.publishLoop id s.posts with
  | some ps => (newHttpJsonResponse (Body.status "published"), { s with posts := ps })
  | none => (newHttpResponse k404NotFound, s)

/-! ## CategoryController -/

/-- The loop of `CategoryController::getCategories`. -/
def CategoryController.getCategoriesLoop (arr : List CategoryItem) :
    List Category → List CategoryItem
  | [] => arr
  | c :: cs => CategoryController.getCategoriesLoop (arr ++ [⟨c.id, c.name⟩]) cs

/-- The handler `CategoryController::getCategories`. -/
def CategoryController.getCategories (s : DataStore) : HttpResponse × DataStore :=
  (newHttpJsonResponse
    (Body.categories (CategoryController.getCategoriesLoop [] s.categories)), s)

/-- The handler `CategoryController::createCategory`. -/
def CategoryController.createCategory (json : Option JsonObject) (s : DataStore) :
    Option (HttpResponse × DataStore) :=
  match json with
  | none => some (newHttpResponse k400BadRequest, s)
  | some j =>
    if !isMember j.name then some (newHttpResponse k400BadRequest, s)
    else if s.nextCategoryId = INT_MAX then none
    else
      let c : Category := { id := s.nextCategoryId, name := asString j.name }
      let s1 : DataStore :=
        { s with categories := s.categories ++ [c], nextCategoryId := s.nextCategoryId + 1 }
      some (newHttpJsonResponse (Body.category c.id c.name), s1)

/-- The handler `CategoryController::createCategory` on a body whose `name` is present
and holds a value that `asString()` cannot convert: the check at line 187 passes, line
196 increments `nextCategoryId`, the read at line 197 throws, nothing is appended. -/
def CategoryController.createCategoryThrows (s : DataStore) :
    Option (HttpResponse × DataStore) :=
  if s.nextCategoryId = INT_MAX then none
  else some (newHttpResponse k500InternalServerError,
    { s with nextCategoryId := s.nextCategoryId + 1 })

/-! ## CommentController -/

/-- The loop of `CommentController::getComments`. -/
def CommentController.getCommentsLoop (id : Int) (arr : List CommentItem) :
    List Comment → List CommentItem
  | [] => arr
  | c :: cs =>
    if c.post_id = id then
      CommentController.getCommentsLoop id (arr ++ [⟨c.id, c.user_id, c.content⟩]) cs
    else CommentController.getCommentsLoop id arr cs

/-- The handler `CommentController::getComments`. -/
def CommentController.getComments (id : Int) (s : DataStore) : HttpResponse × DataStore :=
  (newHttpJsonResponse (Body.comments (CommentController.getCommentsLoop id [] s.comments)), s)

/-- The handler `CommentController::createComment`. -/
def CommentController.createComment (json : Option JsonObject) (id : Int) (s : DataStore) :
    Option (HttpResponse × DataStore) :=
  match json with
  | none => some (newHttpResponse k400BadRequest, s)
  | some j =>
    if !isMember j.content then some (newHttpResponse k400BadRequest, s)
    else if s.nextCommentId = INT_MAX then none
    else
      let c : Comment :=
        { id := s.nextCommentId, post_id := id, user_id := 1, content := asString j.content }
      let s1 : DataStore :=
        { s with comments := s.comments ++ [c], nextCommentId := s.nextCommentId + 1 }
      some (newHttpJsonResponse (Body.commentCreated c.id id), s1)

/-- The handler `CommentController::createComment` on a body whose `content` is present
and holds a value that `asString()` cannot convert: the check at line 227 passes, line
236 increments `nextCommentId`, the read at line 239 throws, nothing is appended. -/
def CommentController.createCommentThrows (s : DataStore) :
    Option (HttpResponse × DataStore) :=
  if s.nextCommentId = INT_MAX then none
  else some (newHttpResponse k500InternalServerError,
    { s with nextCommentId := s.nextCommentId + 1 })

/-! ## UserController -/

/-- The loop of `UserController::getUser`: the first user whose id is `id`. -/
def UserController.getUserLoop (id : Int) : List User → Option User
  | [] => none
  | u :: us => if u.id = id then some u else UserController.getUserLoop id us

/-- The handler `UserController::getUser`. -/
def UserController.getUser (id : Int) (s : DataStore) : HttpResponse × DataStore :=
  match UserController.getUserLoop id s.users with
  | some u => (newHttpJsonResponse (Body.user u.id u.username u.role u.bio), s)
  | none => (newHttpResponse k404NotFound, s)

/-- The loop of `UserController::updateUser`: the users after the update of the first
user whose id is `id`, or `none` when the loop ends without a match. -/
def UserController.updateUserLoop (json : Option JsonObject) (id : Int) :
    List User → Option (List User)
  | [] => none
  | u :: us =>
    if u.id = id then
      match json with
      | some j =>
        if isMember j.bio then some ({ u with bio := asString j.bio } :: us) else some (u :: us)
      | none => some (u :: us)
    else
      match UserController.updateUserLoop json id us with
      | some us1 => some (u :: us1)
      | none => none

/-- The handler `UserController::updateUser`. -/
def UserController.updateUser (json : Option JsonObject) (id : Int) (s : DataStore) :
    HttpResponse × DataStore :=
  match UserController.updateUserLoop json id s.users with
  | some us => (newHttpJsonResponse (Body.status "updated"), { s with users := us })
  | none => (newHttpResponse k404NotFound, s)

/-! ## Sequences of handler calls -/

/-- A request routed to one of the handlers of `Controllers.h`, with its arguments.  The
last three are requests to `createPost`, `createCategory` and `createComment` whose
member read throws after the counter was incremented. -/
inductive Call where
  | registerUser (json : Option JsonObject)
  | login
  | me
  | getPosts
  | createPost (u : Indeterminate) (json : Option JsonObject)
  | getPost (slug : String)
  | updatePost (json : Option JsonObject) (id : Int)
  | deletePost (id : Int)
  | publish (id : Int)
  | getCategories
  | createCategory (json : Option JsonObject)
  | getComments (id : Int)
  | createComment (json : Option JsonObject) (id : Int)
  | getUser (id : Int)
  | updateUser (json : Option JsonObject) (id : Int)
  | createPostThrows
  | createCategoryThrows
  | createCommentThrows
deriving DecidableEq

/-- One handler call on the store; `none` when the call has undefined behaviour. -/
def step (c : Call) (s : DataStore) : Option (HttpResponse × DataStore) :=
  match c with
  | Call.registerUser json => AuthController.registerUser json s
  | Call.login => some (AuthController.login s)
  | Call.me => some (AuthController.me s)
  | Call.getPosts => some (PostController.getPosts s)
  | Call.createPost u json => PostController.createPost u json s
  | Call.getPost slug => some (PostController.getPost slug s)
  | Call.updatePost json id => some (PostController.updatePost json id s)
  | Call.deletePost id => some (PostController.deletePost id s)
  | Call.publish id => some (PostController.publish id s)
  | Call.getCategories => some (CategoryController.getCategories s)
  | Call.createCategory json => CategoryController.createCategory json s
  | Call.getComments id => some (CommentController.getComments id s)
  | Call.createComment json id => CommentController.createComment json id s
  | Call.getUser id => some (UserController.getUser id s)
  | Call.updateUser json id => some (UserController.updateUser json id s)
  | Call.createPostThrows => PostController.createPostThrows s
  | Call.createCategoryThrows => CategoryController.createCategoryThrows s
  | Call.createCommentThrows => CommentController.createCommentThrows s

/-- The handler calls `cs` served one after the other from the store `s`: the responses
in order and the final store. -/
def run : List Call → DataStore → Option (List HttpResponse × DataStore)
  | [], s => some ([], s)
  | c :: cs, s =>
    match step c s with
    | none => none
    | some (r, s1) =>
      match run cs s1 with
      | none => none
      | some (rs, s2) => some (r :: rs, s2)

/-- A store that some sequence of handler calls produces from the initial store. -/
def Reachable (s : DataStore) : Prop :=
  ∃ cs rs, run cs DataStore.initial = some (rs, s)

/-- The id in a response of `createPost`. -/
def returnedPostId (r : HttpResponse) : Option Int :=
  match r.body with
  | Body.postCreated id _ => some id
  | _ => none

/-- The ids that the `createPost` calls among `cs` returned in their responses `rs`, in
the order of the calls. -/
def createdPostIds : List Call → List HttpResponse → List Int
  | c :: cs, r :: rs =>
    match c with
    | Call.createPost _ _ =>
      match returnedPostId r with
      | some id => id :: createdPostIds cs rs
      | none => createdPostIds cs rs
    | _ => createdPostIds cs rs
  | _, _ => []

/-- The number of `createPost` requests among `cs` that fail in a member read after
they have taken an id. -/
def failedPostCreations : List Call → Nat
  | [] => 0
  | c :: cs =>
    match c with
    | Call.createPostThrows => failedPostCreations cs + 1
    | _ => failedPostCreations cs

/-- A post is created, a `createPost` request fails in its member read, a second post is
created. -/
def createFailCreate : List Call :=
  [Call.createPost ⟨0, 0⟩ (some { title := some "A", content := some "x" }),
   Call.createPostThrows,
   Call.createPost ⟨0, 0⟩ (some { title := some "B", content := some "y" })]

/-- A `createPost` request fails in its member read, then a post is created. -/
def failCreate : List Call :=
  [Call.createPostThrows,
   Call.createPost ⟨0, 0⟩ (some { title := some "A", content := some "x" })]

/-- Two posts are created, the first is deleted, a third is created. -/
def createDeleteCreate : List Call :=
  [Call.createPost ⟨0, 0⟩ (some { title := some "A", content := some "x" }),
   Call.createPost ⟨0, 0⟩ (some { title := some "B", content := some "y" }),
   Call.deletePost 1,
   Call.createPost ⟨0, 0⟩ (some { title := some "C", content := some "z" })]

/-- The responses to `createDeleteCreate` from the initial store. -/
def createDeleteCreateResponses : List HttpResponse :=
  [⟨200, Body.postCreated 1 "a"⟩, ⟨200, Body.postCreated 2 "b"⟩,
   ⟨200, Body.status "deleted"⟩, ⟨200, Body.postCreated 3 "c"⟩]

/-- The store after `createDeleteCreate` from the initial store. -/
def createDeleteCreateStore : DataStore :=
  { posts := [{ id := 2, author_id := 0, title := "B", slug := "b", content := "y",
                is_published := false, created_at := "", tags := [], category_id := 0 },
              { id := 3, author_id := 0, title := "C", slug := "c", content := "z",
                is_published := false, created_at := "", tags := [], category_id := 0 }],
    nextPostId := 4 }

/-- The projection of a post that `getPosts` puts in its array: `id`, `title`, `slug`. -/
def PostItem.ofPost (p : Post) : PostItem := ⟨p.id, p.title, p.slug⟩

/-- The slug of a title in the words of the specification: every ASCII upper-case letter
is lower-cased, every space becomes a hyphen, every other character stays. -/
def specSlug (title : String) : String :=
  ⟨title.data.map (fun c => if c = ' ' then '-' else c.toLower)⟩

/-- A store with one post, for the example of an update that gives only content. -/
def exampleStore : DataStore :=
  { posts := [{ id := 1, author_id := 0, title := "Hello World", slug := "hello-world",
                content := "Body", is_published := false, created_at := "", tags := ["a", "b"],
                category_id := 0 }],
    nextPostId := 2 }

/-- Two `createPost` calls with the same title. -/
def sameTitleCalls : List Call :=
  [Call.createPost ⟨0, 0⟩ (some { title := some "A", content := some "x" }),
   Call.createPost ⟨0, 0⟩ (some { title := some "A", content := some "y" })]

/-- The store after `sameTitleCalls`: two posts, both with slug "a". -/
def sameTitleStore : DataStore :=
  { posts := [{ id := 1, author_id := 0, title := "A", slug := "a", content := "x",
                is_published := false, created_at := "", tags := [], category_id := 0 },
              { id := 2, author_id := 0, title := "A", slug := "a", content := "y",
                is_published := false, created_at := "", tags := [], category_id := 0 }],
    nextPostId := 3 }

/-- The ids `ids` of a collection are pairwise distinct, listed in strictly increasing
order, each at least 1 and below the counter `next`. -/
def IdsInOrder (ids : List Int) (next : Int) : Prop :=
  ids.Nodup ∧ ids.Pairwise (fun a b => a < b) ∧ ∀ i ∈ ids, 1 ≤ i ∧ i < next

instance (ids : List Int) (next : Int) : Decidable (IdsInOrder ids next) := by
  unfold IdsInOrder
  infer_instance

/-- The effect of one handler call on a collection, seen through its ids and counter:
no id is added and the counter does not decrease, or the counter's value is added at the
end and the counter advances by one. -/
def Grows (ids ids1 : List Int) (next next1 : Int) : Prop :=
  (List.Sublist ids1 ids ∧ next ≤ next1) ∨ (ids1 = ids ++ [next] ∧ next1 = next + 1)

/-- The invariant of the store: in each of the four collections the ids obey
`IdsInOrder` for the collection's counter, and every counter is at least 1. -/
def DataStore.WellFormed (s : DataStore) : Prop :=
  (IdsInOrder (s.users.map (fun u => u.id)) s.nextUserId ∧ 1 ≤ s.nextUserId)
  ∧ (IdsInOrder (s.posts.map (fun p => p.id)) s.nextPostId ∧ 1 ≤ s.nextPostId)
  ∧ (IdsInOrder (s.categories.map (fun c => c.id)) s.nextCategoryId ∧ 1 ≤ s.nextCategoryId)
  ∧ (IdsInOrder (s.comments.map (fun c => c.id)) s.nextCommentId ∧ 1 ≤ s.nextCommentId)

/-- The relation between the store before and after one handler call: each collection
`Grows`. -/
def StoreGrows (s s1 : DataStore) : Prop :=
  Grows (s.users.map (fun u => u.id)) (s1.users.map (fun u => u.id)) s.nextUserId s1.nextUserId
  ∧ Grows (s.posts.map (fun p => p.id)) (s1.posts.map (fun p => p.id))
      s.nextPostId s1.nextPostId
  ∧ Grows (s.categories.map (fun c => c.id)) (s1.categories.map (fun c => c.id))
      s.nextCategoryId s1.nextCategoryId
  ∧ Grows (s.comments.map (fun c => c.id)) (s1.comments.map (fun c => c.id))
      s.nextCommentId s1.nextCommentId

/-- The projection of a comment that `getComments` puts in its array. -/
def CommentItem.ofComment (c : Comment) : CommentItem := ⟨c.id, c.user_id, c.content⟩

/-- One `createComment` call on post id 5, for which no post was ever created. -/
def orphanCommentCalls : List Call :=
  [Call.createComment (some { content := some "hi" }) 5]

/-- The store after `orphanCommentCalls`: one comment, no post. -/
def orphanCommentStore : DataStore :=
  { comments := [{ id := 1, post_id := 5, user_id := 1, content := "hi" }],
    nextCommentId := 2 }

/-- A store with one registered user. -/
def oneUserStore : DataStore :=
  { users := [⟨1, "user", "a@b.c", "pw", "author", ""⟩], nextUserId := 2 }

/-- A user with the email and the stored password blanked out. -/
def userWithoutSecrets (u : User) : User := { u with email := "", password_hash := "" }

/-- A store with the email and the stored password of every user blanked out.  Two stores
differ only in these fields of their users exactly when this gives the same store. -/
def DataStore.withoutSecrets (s : DataStore) : DataStore :=
  { s with users := s.users.map userWithoutSecrets }

/-- The store `oneUserStore` with another email and another password for its user. -/
def oneUserStoreOtherSecrets : DataStore :=
  { users := [⟨1, "user", "x@y.z", "hunter2", "author", ""⟩], nextUserId := 2 }

/-! ## Lemmas on the loops -/

theorem tolower_eq_toLower (c : Char) : tolower c = c.toLower := by
  unfold tolower Char.toLower
  have h : ('A' ≤ c ∧ c ≤ 'Z') ↔ (c.toNat ≥ 65 ∧ c.toNat ≤ 90) := by
    constructor
    · rintro ⟨h1, h2⟩
      exact ⟨h1, h2⟩
    · rintro ⟨h1, h2⟩
      exact ⟨h1, h2⟩
  by_cases hc : 'A' ≤ c ∧ c ≤ 'Z'
  · rw [if_pos hc, if_pos (h.mp hc)]
  · rw [if_neg hc, if_neg (fun h2 => hc (h.mpr h2))]

theorem toLower_ne_space (c : Char) (hc : c ≠ ' ') : c.toLower ≠ ' ' := by
  unfold Char.toLower
  by_cases h : c.toNat ≥ 65 ∧ c.toNat ≤ 90
  · simp only [h, and_self, if_true]
    intro heq
    have h2 : (Char.ofNat (c.toNat + 32)).toNat = 32 := by rw [heq]; rfl
    have h3 : (c.toNat + 32).isValidChar := by
      left
      omega
    rw [Char.ofNat, dif_pos h3] at h2
    change c.toNat + 32 = 32 at h2
    omega
  · simp only [h, if_false]
    exact hc

theorem slugChar_eq (c : Char) :
    (if tolower c = ' ' then '-' else tolower c) = (if c = ' ' then '-' else c.toLower) := by
  rw [tolower_eq_toLower]
  by_cases hc : c = ' '
  · subst hc
    rfl
  · rw [if_neg hc, if_neg (toLower_ne_space c hc)]

theorem slugify_eq_specSlug (title : String) : slugify title = specSlug title := by
  unfold slugify specSlug std_replace std_transform
  congr 1
  rw [List.map_map]
  apply List.map_congr_left
  intro c _
  exact slugChar_eq c

theorem slugify_length (title : String) : (slugify title).length = title.length := by
  show (List.map _ (List.map tolower title.data)).length = title.data.length
  rw [List.length_map, List.length_map]

theorem getPostsLoop_eq (arr : List PostItem) (ps : List Post) :
    PostController.getPostsLoop arr ps
      = arr ++ (ps.filter (fun p => p.is_published)).map PostItem.ofPost := by
  induction ps generalizing arr with
  | nil => simp [PostController.getPostsLoop]
  | cons p ps ih =>
    by_cases hp : p.is_published = true
    · simp [PostController.getPostsLoop, hp, ih, PostItem.ofPost]
    · simp [PostController.getPostsLoop, hp, ih]

theorem exists_first_split {α : Type} (P : α → Prop) [DecidablePred P] (l : List α)
    (h : ∃ x ∈ l, P x) :
    ∃ pre x post, l = pre ++ x :: post ∧ (∀ q ∈ pre, ¬ P q) ∧ P x := by
  induction l with
  | nil =>
    obtain ⟨x, hx, _⟩ := h
    cases hx
  | cons a l ih =>
    by_cases ha : P a
    · exact ⟨[], a, l, rfl, by simp, ha⟩
    · have h2 : ∃ x ∈ l, P x := by
        obtain ⟨x, hx, hPx⟩ := h
        rcases List.mem_cons.mp hx with rfl | hx
        · exact absurd hPx ha
        · exact ⟨x, hx, hPx⟩
      obtain ⟨pre, x, post, hl, hpre, hx⟩ := ih h2
      refine ⟨a :: pre, x, post, by rw [hl]; rfl, ?_, hx⟩
      intro q hq
      rcases List.mem_cons.mp hq with rfl | hq
      · exact ha
      · exact hpre q hq

theorem pushTags_eq (tags ts : List String) : PostController.pushTags tags ts = tags ++ ts := by
  induction ts generalizing tags with
  | nil => simp [PostController.pushTags]
  | cons t ts ih => simp [PostController.pushTags, ih]

theorem applyUpdate_eq (j : JsonObject) (p : Post) :
    PostController.applyUpdate j p
      = { p with
          title := j.title.getD p.title
          content := j.content.getD p.content
          tags := j.tags.getD p.tags } := by
  obtain ⟨e, pw, t, c, tg, n, b⟩ := j
  cases t <;> cases c <;> cases tg <;>
    simp [PostController.applyUpdate, isMember, asString, pushTags_eq]

theorem publishLoop_split (id : Int) (pre : List Post) (p : Post) (post : List Post)
    (hpre : ∀ q ∈ pre, q.id ≠ id) (hp : p.id = id) :
    PostController.publishLoop id (pre ++ p :: post)
      = some (pre ++ { p with is_published := true } :: post) := by
  induction pre with
  | nil => simp [PostController.publishLoop, hp]
  | cons a pre ih =>
    have ha : a.id ≠ id := hpre a (List.mem_cons_self _ _)
    have ih2 := ih (fun q hq => hpre q (List.mem_cons_of_mem _ hq))
    simp [PostController.publishLoop, ha, ih2]

theorem publishLoop_none (id : Int) (ps : List Post) (h : ∀ q ∈ ps, q.id ≠ id) :
    PostController.publishLoop id ps = none := by
  induction ps with
  | nil => rfl
  | cons a ps ih =>
    have ha : a.id ≠ id := h a (List.mem_cons_self _ _)
    have ih2 := ih (fun q hq => h q (List.mem_cons_of_mem _ hq))
    simp [PostController.publishLoop, ha, ih2]

theorem std_remove_if_eq_filter {α : Type} (pred : α → Bool) (l : List α) :
    std_remove_if pred l = l.filter (fun x => !pred x) := by
  induction l with
  | nil => rfl
  | cons a l ih =>
    cases h : pred a <;> simp [std_remove_if, h, ih]

theorem filter_length_eq_iff {α : Type} (f : α → Bool) (l : List α) :
    (l.filter f).length = l.length ↔ ∀ x ∈ l, f x = true := by
  constructor
  · intro h
    have h2 : l.filter f = l := List.Sublist.eq_of_length (List.filter_sublist l) h
    exact List.filter_eq_self.mp h2
  · intro h
    rw [List.filter_eq_self.mpr h]

theorem getPostLoop_none (slug : String) (ps : List Post) (h : ∀ q ∈ ps, q.slug ≠ slug) :
    PostController.getPostLoop slug ps = none := by
  induction ps with
  | nil => rfl
  | cons a ps ih =>
    have ha : a.slug ≠ slug := h a (List.mem_cons_self _ _)
    have ih2 := ih (fun q hq => h q (List.mem_cons_of_mem _ hq))
    simp [PostController.getPostLoop, ha, ih2]

/-- What `deletePost` does, for every store: 404 and no change when no post has the id,
otherwise 200 and the posts with another id are kept in their order. -/
theorem deletePost_eq (id : Int) (s : DataStore) :
    PostController.deletePost id s
      = if ∀ p ∈ s.posts, p.id ≠ id then (newHttpResponse k404NotFound, s)
        else (newHttpJsonResponse (Body.status "deleted"),
              { s with posts := s.posts.filter (fun p => decide (p.id ≠ id)) }) := by
  have hf : std_remove_if (fun p : Post => decide (p.id = id)) s.posts
      = s.posts.filter (fun p => decide (p.id ≠ id)) := by
    rw [std_remove_if_eq_filter]
    congr 1
    funext p
    simp
  have hlen : (s.posts.filter (fun p => decide (p.id ≠ id))).length = s.posts.length
      ↔ ∀ p ∈ s.posts, p.id ≠ id := by
    rw [filter_length_eq_iff]
    simp
  unfold PostController.deletePost
  simp only [hf]
  by_cases h : ∀ p ∈ s.posts, p.id ≠ id
  · rw [if_pos h, if_neg (not_not.mpr (hlen.mpr h))]
  · rw [if_neg h, if_pos (fun hl => h (hlen.mp hl))]

theorem updatePostLoop_ids (j : JsonObject) (id : Int) (ps ps1 : List Post)
    (h : PostController.updatePostLoop j id ps = some ps1) :
    ps1.map (fun p => p.id) = ps.map (fun p => p.id) := by
  induction ps generalizing ps1 with
  | nil => simp [PostController.updatePostLoop] at h
  | cons a ps ih =>
    by_cases ha : a.id = id
    · simp only [PostController.updatePostLoop, if_pos ha, Option.some.injEq] at h
      subst h
      simp [applyUpdate_eq]
    · simp only [PostController.updatePostLoop, if_neg ha] at h
      cases hrec : PostController.updatePostLoop j id ps with
      | none => simp [hrec] at h
      | some ps2 =>
        simp only [hrec, Option.some.injEq] at h
        subst h
        simp [ih ps2 hrec]

theorem publishLoop_ids (id : Int) (ps ps1 : List Post)
    (h : PostController.publishLoop id ps = some ps1) :
    ps1.map (fun p => p.id) = ps.map (fun p => p.id) := by
  induction ps generalizing ps1 with
  | nil => simp [PostController.publishLoop] at h
  | cons a ps ih =>
    by_cases ha : a.id = id
    · simp only [PostController.publishLoop, if_pos ha, Option.some.injEq] at h
      subst h
      simp
    · simp only [PostController.publishLoop, if_neg ha] at h
      cases hrec : PostController.publishLoop id ps with
      | none => simp [hrec] at h
      | some ps2 =>
        simp only [hrec, Option.some.injEq] at h
        subst h
        simp [ih ps2 hrec]

theorem updateUserLoop_ids (json : Option JsonObject) (id : Int) (us us1 : List User)
    (h : UserController.updateUserLoop json id us = some us1) :
    us1.map (fun u => u.id) = us.map (fun u => u.id) := by
  induction us generalizing us1 with
  | nil => simp [UserController.updateUserLoop] at h
  | cons a us ih =>
    by_cases ha : a.id = id
    · simp only [UserController.updateUserLoop, if_pos ha] at h
      cases json with
      | none =>
        simp only [Option.some.injEq] at h
        subst h
        rfl
      | some j =>
        by_cases hb : isMember j.bio = true
        · simp only [if_pos hb] at h
          injection h with h
          subst h
          rfl
        · simp only [if_neg hb] at h
          injection h with h
          subst h
          rfl
    · simp only [UserController.updateUserLoop, if_neg ha] at h
      cases hrec : UserController.updateUserLoop json id us with
      | none => simp [hrec] at h
      | some us2 =>
        simp only [hrec, Option.some.injEq] at h
        subst h
        simp [ih us2 hrec]

theorem Grows.same (ids : List Int) (next : Int) : Grows ids ids next next :=
  Or.inl ⟨List.Sublist.refl _, le_refl _⟩

theorem Grows.skip (ids : List Int) (next : Int) : Grows ids ids next (next + 1) :=
  Or.inl ⟨List.Sublist.refl _, by omega⟩

theorem Grows.of_eq {ids ids1 : List Int} (next : Int) (h : ids1 = ids) :
    Grows ids ids1 next next := by
  subst h
  exact Grows.same _ _

theorem Grows.next_le {ids ids1 : List Int} {next next1 : Int} (h : Grows ids ids1 next next1) :
    next ≤ next1 := by
  rcases h with ⟨_, h⟩ | ⟨_, h⟩ <;> omega

theorem Grows.idsInOrder {ids ids1 : List Int} {next next1 : Int}
    (h : Grows ids ids1 next next1) (hn : 1 ≤ next) (hi : IdsInOrder ids next) :
    IdsInOrder ids1 next1 := by
  obtain ⟨hnd, hpw, hb⟩ := hi
  rcases h with ⟨hsub, hle⟩ | ⟨rfl, rfl⟩
  · refine ⟨hnd.sublist hsub, hpw.sublist hsub, fun i hi => ?_⟩
    have := hb i (hsub.subset hi)
    omega
  · have hpw2 : (ids ++ [next]).Pairwise (fun a b => a < b) := by
      rw [List.pairwise_append]
      refine ⟨hpw, List.pairwise_singleton _ _, ?_⟩
      intro a ha b hb2
      rw [List.mem_singleton] at hb2
      subst hb2
      exact (hb a ha).2
    refine ⟨?_, hpw2, ?_⟩
    · exact hpw2.imp (fun hab => ne_of_lt hab)
    · intro i hi
      rcases List.mem_append.mp hi with hi | hi
      · have := hb i hi
        omega
      · rw [List.mem_singleton] at hi
        omega

theorem StoreGrows.unchanged (s : DataStore) : StoreGrows s s :=
  ⟨Grows.same _ _, Grows.same _ _, Grows.same _ _, Grows.same _ _⟩

theorem registerUser_grows (json : Option JsonObject) (s : DataStore) (r : HttpResponse)
    (s1 : DataStore) (h : AuthController.registerUser json s = some (r, s1)) :
    StoreGrows s s1 := by
  cases json with
  | none =>
    simp only [AuthController.registerUser, Option.some.injEq, Prod.mk.injEq] at h
    rw [← h.2]
    exact StoreGrows.unchanged s
  | some j =>
    by_cases ho : s.nextUserId = INT_MAX
    · simp [AuthController.registerUser, ho] at h
    · simp only [AuthController.registerUser, if_neg ho, Option.some.injEq, Prod.mk.injEq] at h
      rw [← h.2]
      exact ⟨Or.inr ⟨by simp, rfl⟩, Grows.same _ _, Grows.same _ _, Grows.same _ _⟩

theorem createPost_grows (u : Indeterminate) (json : Option JsonObject) (s : DataStore)
    (r : HttpResponse) (s1 : DataStore)
    (h : PostController.createPost u json s = some (r, s1)) :
    StoreGrows s s1 := by
  by_cases ho : s.nextPostId = INT_MAX
  · simp [PostController.createPost, ho] at h
  · cases json with
    | none => simp [PostController.createPost, ho] at h
    | some j =>
      simp only [PostController.createPost, if_neg ho, Option.some.injEq, Prod.mk.injEq] at h
      rw [← h.2]
      exact ⟨Grows.same _ _, Or.inr ⟨by simp, rfl⟩, Grows.same _ _, Grows.same _ _⟩

theorem createCategory_grows (json : Option JsonObject) (s : DataStore) (r : HttpResponse)
    (s1 : DataStore) (h : CategoryController.createCategory json s = some (r, s1)) :
    StoreGrows s s1 := by
  cases json with
  | none =>
    simp only [CategoryController.createCategory, Option.some.injEq, Prod.mk.injEq] at h
    rw [← h.2]
    exact StoreGrows.unchanged s
  | some j =>
    by_cases hm : isMember j.name = true
    · by_cases ho : s.nextCategoryId = INT_MAX
      · simp [CategoryController.createCategory, hm, ho] at h
      · simp only [CategoryController.createCategory, hm, Bool.not_true, if_neg ho,
          Option.some.injEq, Prod.mk.injEq, Bool.false_eq_true, if_false] at h
        rw [← h.2]
        exact ⟨Grows.same _ _, Grows.same _ _, Or.inr ⟨by simp, rfl⟩, Grows.same _ _⟩
    · simp only [CategoryController.createCategory, hm, Bool.not_false, if_true,
        Option.some.injEq, Prod.mk.injEq] at h
      rw [← h.2]
      exact StoreGrows.unchanged s

theorem createComment_grows (json : Option JsonObject) (id : Int) (s : DataStore)
    (r : HttpResponse) (s1 : DataStore)
    (h : CommentController.createComment json id s = some (r, s1)) :
    StoreGrows s s1 := by
  cases json with
  | none =>
    simp only [CommentController.createComment, Option.some.injEq, Prod.mk.injEq] at h
    rw [← h.2]
    exact StoreGrows.unchanged s
  | some j =>
    by_cases hm : isMember j.content = true
    · by_cases ho : s.nextCommentId = INT_MAX
      · simp [CommentController.createComment, hm, ho] at h
      · simp only [CommentController.createComment, hm, Bool.not_true, if_neg ho,
          Option.some.injEq, Prod.mk.injEq, Bool.false_eq_true, if_false] at h
        rw [← h.2]
        exact ⟨Grows.same _ _, Grows.same _ _, Grows.same _ _, Or.inr ⟨by simp, rfl⟩⟩
    · simp only [CommentController.createComment, hm, Bool.not_false, if_true,
        Option.some.injEq, Prod.mk.injEq] at h
      rw [← h.2]
      exact StoreGrows.unchanged s

theorem updatePost_grows (json : Option JsonObject) (id : Int) (s : DataStore) :
    StoreGrows s (PostController.updatePost json id s).2 := by
  cases json with
  | none => exact StoreGrows.unchanged s
  | some j =>
    cases hl : PostController.updatePostLoop j id s.posts with
    | none =>
      simp only [PostController.updatePost, hl]
      exact StoreGrows.unchanged s
    | some ps =>
      simp only [PostController.updatePost, hl]
      exact ⟨Grows.same _ _, Grows.of_eq _ (updatePostLoop_ids j id _ _ hl), Grows.same _ _,
        Grows.same _ _⟩

theorem publish_grows (id : Int) (s : DataStore) :
    StoreGrows s (PostController.publish id s).2 := by
  cases hl : PostController.publishLoop id s.posts with
  | none =>
    simp only [PostController.publish, hl]
    exact StoreGrows.unchanged s
  | some ps =>
    simp only [PostController.publish, hl]
    exact ⟨Grows.same _ _, Grows.of_eq _ (publishLoop_ids id _ _ hl), Grows.same _ _,
      Grows.same _ _⟩

theorem updateUser_grows (json : Option JsonObject) (id : Int) (s : DataStore) :
    StoreGrows s (UserController.updateUser json id s).2 := by
  cases hl : UserController.updateUserLoop json id s.users with
  | none =>
    simp only [UserController.updateUser, hl]
    exact StoreGrows.unchanged s
  | some us =>
    simp only [UserController.updateUser, hl]
    exact ⟨Grows.of_eq _ (updateUserLoop_ids json id _ _ hl), Grows.same _ _, Grows.same _ _,
      Grows.same _ _⟩

theorem deletePost_grows (id : Int) (s : DataStore) :
    StoreGrows s (PostController.deletePost id s).2 := by
  rw [deletePost_eq]
  by_cases h : ∀ p ∈ s.posts, p.id ≠ id
  · rw [if_pos h]
    exact StoreGrows.unchanged s
  · rw [if_neg h]
    exact ⟨Grows.same _ _, Or.inl ⟨(List.filter_sublist _).map _, le_refl _⟩, Grows.same _ _,
      Grows.same _ _⟩

theorem getPost_store (slug : String) (s : DataStore) : (PostController.getPost slug s).2 = s := by
  unfold PostController.getPost
  cases PostController.getPostLoop slug s.posts <;> rfl

theorem getUser_store (id : Int) (s : DataStore) : (UserController.getUser id s).2 = s := by
  unfold UserController.getUser
  cases UserController.getUserLoop id s.users <;> rfl

/-- Every handler call makes each collection grow in the sense of `Grows`. -/
theorem step_grows (c : Call) (s : DataStore) (r : HttpResponse) (s1 : DataStore)
    (h : step c s = some (r, s1)) : StoreGrows s s1 := by
  cases c with
  | registerUser json => exact registerUser_grows json s r s1 h
  | createPost u json => exact createPost_grows u json s r s1 h
  | createCategory json => exact createCategory_grows json s r s1 h
  | createComment json id => exact createComment_grows json id s r s1 h
  | updatePost json id =>
    simp only [step, Option.some.injEq] at h
    have h2 : (PostController.updatePost json id s).2 = s1 := congrArg Prod.snd h
    rw [← h2]
    exact updatePost_grows json id s
  | deletePost id =>
    simp only [step, Option.some.injEq] at h
    have h2 : (PostController.deletePost id s).2 = s1 := congrArg Prod.snd h
    rw [← h2]
    exact deletePost_grows id s
  | publish id =>
    simp only [step, Option.some.injEq] at h
    have h2 : (PostController.publish id s).2 = s1 := congrArg Prod.snd h
    rw [← h2]
    exact publish_grows id s
  | updateUser json id =>
    simp only [step, Option.some.injEq] at h
    have h2 : (UserController.updateUser json id s).2 = s1 := congrArg Prod.snd h
    rw [← h2]
    exact updateUser_grows json id s
  | getPost slug =>
    simp only [step, Option.some.injEq] at h
    have h2 : (PostController.getPost slug s).2 = s1 := congrArg Prod.snd h
    rw [← h2, getPost_store]
    exact StoreGrows.unchanged s
  | getUser id =>
    simp only [step, Option.some.injEq] at h
    have h2 : (UserController.getUser id s).2 = s1 := congrArg Prod.snd h
    rw [← h2, getUser_store]
    exact StoreGrows.unchanged s
  | login =>
    simp only [step, Option.some.injEq] at h
    have h2 : s = s1 := congrArg Prod.snd h
    rw [← h2]
    exact StoreGrows.unchanged s
  | me =>
    simp only [step, Option.some.injEq] at h
    have h2 : s = s1 := congrArg Prod.snd h
    rw [← h2]
    exact StoreGrows.unchanged s
  | getPosts =>
    simp only [step, Option.some.injEq] at h
    have h2 : s = s1 := congrArg Prod.snd h
    rw [← h2]
    exact StoreGrows.unchanged s
  | getCategories =>
    simp only [step, Option.some.injEq] at h
    have h2 : s = s1 := congrArg Prod.snd h
    rw [← h2]
    exact StoreGrows.unchanged s
  | getComments id =>
    simp only [step, Option.some.injEq] at h
    have h2 : s = s1 := congrArg Prod.snd h
    rw [← h2]
    exact StoreGrows.unchanged s
  | createPostThrows =>
    by_cases ho : s.nextPostId = INT_MAX
    · simp [step, PostController.createPostThrows, ho] at h
    · simp only [step, PostController.createPostThrows, if_neg ho, Option.some.injEq,
        Prod.mk.injEq] at h
      rw [← h.2]
      exact ⟨Grows.same _ _, Grows.skip _ _, Grows.same _ _, Grows.same _ _⟩
  | createCategoryThrows =>
    by_cases ho : s.nextCategoryId = INT_MAX
    · simp [step, CategoryController.createCategoryThrows, ho] at h
    · simp only [step, CategoryController.createCategoryThrows, if_neg ho, Option.some.injEq,
        Prod.mk.injEq] at h
      rw [← h.2]
      exact ⟨Grows.same _ _, Grows.same _ _, Grows.skip _ _, Grows.same _ _⟩
  | createCommentThrows =>
    by_cases ho : s.nextCommentId = INT_MAX
    · simp [step, CommentController.createCommentThrows, ho] at h
    · simp only [step, CommentController.createCommentThrows, if_neg ho, Option.some.injEq,
        Prod.mk.injEq] at h
      rw [← h.2]
      exact ⟨Grows.same _ _, Grows.same _ _, Grows.same _ _, Grows.skip _ _⟩

theorem StoreGrows.wellFormed {s s1 : DataStore} (h : StoreGrows s s1)
    (hs : s.WellFormed) : s1.WellFormed := by
  obtain ⟨hu, hp, hc, hm⟩ := h
  obtain ⟨⟨iu, nu⟩, ⟨ip, np⟩, ⟨ic, nc⟩, ⟨im, nm⟩⟩ := hs
  exact ⟨⟨hu.idsInOrder nu iu, le_trans nu hu.next_le⟩,
    ⟨hp.idsInOrder np ip, le_trans np hp.next_le⟩,
    ⟨hc.idsInOrder nc ic, le_trans nc hc.next_le⟩,
    ⟨hm.idsInOrder nm im, le_trans nm hm.next_le⟩⟩

theorem run_cons_some (c : Call) (cs : List Call) (s : DataStore) (rs : List HttpResponse)
    (s2 : DataStore) (h : run (c :: cs) s = some (rs, s2)) :
    ∃ r s1 rs1, step c s = some (r, s1) ∧ run cs s1 = some (rs1, s2) ∧ rs = r :: rs1 := by
  cases hst : step c s with
  | none => simp [run, hst] at h
  | some x =>
    obtain ⟨r, s1⟩ := x
    cases hrun : run cs s1 with
    | none => simp [run, hst, hrun] at h
    | some y =>
      obtain ⟨rs1, s3⟩ := y
      simp only [run, hst, hrun, Option.some.injEq, Prod.mk.injEq] at h
      exact ⟨r, s1, rs1, rfl, by rw [hrun, h.2], h.1.symm⟩

theorem run_wellFormed (cs : List Call) (s : DataStore) (rs : List HttpResponse)
    (s2 : DataStore) (h : run cs s = some (rs, s2)) (hs : s.WellFormed) : s2.WellFormed := by
  induction cs generalizing s rs with
  | nil =>
    simp only [run, Option.some.injEq, Prod.mk.injEq] at h
    rw [← h.2]
    exact hs
  | cons c cs ih =>
    obtain ⟨r, s1, rs1, hst, hrun, _⟩ := run_cons_some c cs s rs s2 h
    exact ih s1 rs1 hrun ((step_grows c s r s1 hst).wellFormed hs)

theorem initial_wellFormed : DataStore.initial.WellFormed := by
  refine ⟨⟨?_, by decide⟩, ⟨?_, by decide⟩, ⟨?_, by decide⟩, ⟨?_, by decide⟩⟩ <;>
    exact ⟨List.nodup_nil, List.Pairwise.nil, fun i hi => absurd hi (List.not_mem_nil i)⟩

theorem reachable_wellFormed (s : DataStore) (h : Reachable s) : s.WellFormed := by
  obtain ⟨cs, rs, hrun⟩ := h
  exact run_wellFormed cs _ rs s hrun initial_wellFormed

theorem updatePost_nextPostId (json : Option JsonObject) (id : Int) (s : DataStore) :
    (PostController.updatePost json id s).2.nextPostId = s.nextPostId := by
  cases json with
  | none => rfl
  | some j =>
    cases hl : PostController.updatePostLoop j id s.posts <;>
      simp only [PostController.updatePost, hl]

theorem deletePost_nextPostId (id : Int) (s : DataStore) :
    (PostController.deletePost id s).2.nextPostId = s.nextPostId := by
  rw [deletePost_eq]
  by_cases h : ∀ p ∈ s.posts, p.id ≠ id
  · rw [if_pos h]
  · rw [if_neg h]

theorem publish_nextPostId (id : Int) (s : DataStore) :
    (PostController.publish id s).2.nextPostId = s.nextPostId := by
  unfold PostController.publish
  cases PostController.publishLoop id s.posts <;> rfl

theorem updateUser_nextPostId (json : Option JsonObject) (id : Int) (s : DataStore) :
    (UserController.updateUser json id s).2.nextPostId = s.nextPostId := by
  unfold UserController.updateUser
  cases UserController.updateUserLoop json id s.users <;> rfl

theorem registerUser_nextPostId (json : Option JsonObject) (s : DataStore) (r : HttpResponse)
    (s1 : DataStore) (h : AuthController.registerUser json s = some (r, s1)) :
    s1.nextPostId = s.nextPostId := by
  cases json with
  | none =>
    simp only [AuthController.registerUser, Option.some.injEq, Prod.mk.injEq] at h
    rw [← h.2]
  | some j =>
    by_cases ho : s.nextUserId = INT_MAX
    · simp [AuthController.registerUser, ho] at h
    · simp only [AuthController.registerUser, if_neg ho, Option.some.injEq, Prod.mk.injEq] at h
      rw [← h.2]

theorem createCategory_nextPostId (json : Option JsonObject) (s : DataStore)
    (r : HttpResponse) (s1 : DataStore)
    (h : CategoryController.createCategory json s = some (r, s1)) :
    s1.nextPostId = s.nextPostId := by
  cases json with
  | none =>
    simp only [CategoryController.createCategory, Option.some.injEq, Prod.mk.injEq] at h
    rw [← h.2]
  | some j =>
    by_cases hm : isMember j.name = true
    · by_cases ho : s.nextCategoryId = INT_MAX
      · simp [CategoryController.createCategory, hm, ho] at h
      · simp only [CategoryController.createCategory, hm, Bool.not_true, if_neg ho,
          Option.some.injEq, Prod.mk.injEq, Bool.false_eq_true, if_false] at h
        rw [← h.2]
    · simp only [CategoryController.createCategory, hm, Bool.not_false, if_true,
        Option.some.injEq, Prod.mk.injEq] at h
      rw [← h.2]

theorem createComment_nextPostId (json : Option JsonObject) (id : Int) (s : DataStore)
    (r : HttpResponse) (s1 : DataStore)
    (h : CommentController.createComment json id s = some (r, s1)) :
    s1.nextPostId = s.nextPostId := by
  cases json with
  | none =>
    simp only [CommentController.createComment, Option.some.injEq, Prod.mk.injEq] at h
    rw [← h.2]
  | some j =>
    by_cases hm : isMember j.content = true
    · by_cases ho : s.nextCommentId = INT_MAX
      · simp [CommentController.createComment, hm, ho] at h
      · simp only [CommentController.createComment, hm, Bool.not_true, if_neg ho,
          Option.some.injEq, Prod.mk.injEq, Bool.false_eq_true, if_false] at h
        rw [← h.2]
    · simp only [CommentController.createComment, hm, Bool.not_false, if_true,
        Option.some.injEq, Prod.mk.injEq] at h
      rw [← h.2]

theorem createPost_returns (u : Indeterminate) (json : Option JsonObject) (s : DataStore)
    (r : HttpResponse) (s1 : DataStore)
    (h : PostController.createPost u json s = some (r, s1)) :
    returnedPostId r = some s.nextPostId ∧ s1.nextPostId = s.nextPostId + 1 := by
  by_cases ho : s.nextPostId = INT_MAX
  · simp [PostController.createPost, ho] at h
  · cases json with
    | none => simp [PostController.createPost, ho] at h
    | some j =>
      simp only [PostController.createPost, if_neg ho, Option.some.injEq, Prod.mk.injEq] at h
      rw [← h.1, ← h.2]
      exact ⟨rfl, rfl⟩

theorem createPostThrows_nextPostId (s : DataStore) (r : HttpResponse) (s1 : DataStore)
    (h : PostController.createPostThrows s = some (r, s1)) :
    s1.nextPostId = s.nextPostId + 1 := by
  by_cases ho : s.nextPostId = INT_MAX
  · simp [PostController.createPostThrows, ho] at h
  · simp only [PostController.createPostThrows, if_neg ho, Option.some.injEq,
      Prod.mk.injEq] at h
    rw [← h.2]

theorem createCategoryThrows_nextPostId (s : DataStore) (r : HttpResponse) (s1 : DataStore)
    (h : CategoryController.createCategoryThrows s = some (r, s1)) :
    s1.nextPostId = s.nextPostId := by
  by_cases ho : s.nextCategoryId = INT_MAX
  · simp [CategoryController.createCategoryThrows, ho] at h
  · simp only [CategoryController.createCategoryThrows, if_neg ho, Option.some.injEq,
      Prod.mk.injEq] at h
    rw [← h.2]

theorem createCommentThrows_nextPostId (s : DataStore) (r : HttpResponse) (s1 : DataStore)
    (h : CommentController.createCommentThrows s = some (r, s1)) :
    s1.nextPostId = s.nextPostId := by
  by_cases ho : s.nextCommentId = INT_MAX
  · simp [CommentController.createCommentThrows, ho] at h
  · simp only [CommentController.createCommentThrows, if_neg ho, Option.some.injEq,
      Prod.mk.injEq] at h
    rw [← h.2]

/-- The counter `nextPostId` ends a run advanced by the number of ids that the
`createPost` calls returned plus the number of creation requests that failed in a member
read; when none failed, the ids returned are the values of `nextPostId` from its value at
the start onwards. -/
theorem run_createdPostIds (cs : List Call) (s : DataStore) (rs : List HttpResponse)
    (s2 : DataStore) (h : run cs s = some (rs, s2)) :
    s2.nextPostId
        = s.nextPostId + ((createdPostIds cs rs).length : Int) + (failedPostCreations cs : Int)
    ∧ (failedPostCreations cs = 0 →
        createdPostIds cs rs
          = (List.range (createdPostIds cs rs).length).map
              (fun k : Nat => s.nextPostId + (k : Int))) := by
  induction cs generalizing s rs with
  | nil =>
    simp only [run, Option.some.injEq, Prod.mk.injEq] at h
    rw [← h.1, ← h.2]
    simp [createdPostIds, failedPostCreations]
  | cons c cs ih =>
    obtain ⟨r, s1, rs1, hst, hrun, rfl⟩ := run_cons_some c cs s rs s2 h
    obtain ⟨ih2, ih1⟩ := ih s1 rs1 hrun
    have same : (createdPostIds (c :: cs) (r :: rs1) = createdPostIds cs rs1) →
        (failedPostCreations (c :: cs) = failedPostCreations cs) →
        s1.nextPostId = s.nextPostId →
        s2.nextPostId
            = s.nextPostId + ((createdPostIds (c :: cs) (r :: rs1)).length : Int)
              + (failedPostCreations (c :: cs) : Int)
        ∧ (failedPostCreations (c :: cs) = 0 →
            createdPostIds (c :: cs) (r :: rs1)
              = (List.range (createdPostIds (c :: cs) (r :: rs1)).length).map
                  (fun k : Nat => s.nextPostId + (k : Int))) := by
      intro h1 h3 h2
      rw [h1, h3, ← h2]
      exact ⟨ih2, ih1⟩
    cases c with
    | createPost u json =>
      obtain ⟨hr, hn⟩ := createPost_returns u json s r s1 hst
      have hc : createdPostIds (Call.createPost u json :: cs) (r :: rs1)
          = s.nextPostId :: createdPostIds cs rs1 := by
        simp only [createdPostIds, hr]
      have hf : failedPostCreations (Call.createPost u json :: cs) = failedPostCreations cs :=
        rfl
      rw [hc, hf, List.length_cons]
      refine ⟨?_, ?_⟩
      · rw [ih2, hn]
        push_cast
        ring
      · intro hz
        rw [List.range_succ_eq_map, List.map_cons, List.map_map]
        congr 1
        · simp
        · conv_lhs => rw [ih1 hz]
          apply List.map_congr_left
          intro k _
          simp only [Function.comp_apply, hn]
          push_cast
          ring
    | createPostThrows =>
      have hn := createPostThrows_nextPostId s r s1 hst
      have hc : createdPostIds (Call.createPostThrows :: cs) (r :: rs1)
          = createdPostIds cs rs1 := rfl
      have hf : failedPostCreations (Call.createPostThrows :: cs)
          = failedPostCreations cs + 1 := rfl
      rw [hc, hf]
      refine ⟨?_, fun hz => absurd hz (Nat.succ_ne_zero _)⟩
      rw [ih2, hn]
      push_cast
      ring
    | createCategoryThrows => exact same rfl rfl (createCategoryThrows_nextPostId s r s1 hst)
    | createCommentThrows => exact same rfl rfl (createCommentThrows_nextPostId s r s1 hst)
    | registerUser json => exact same rfl rfl (registerUser_nextPostId json s r s1 hst)
    | createCategory json => exact same rfl rfl (createCategory_nextPostId json s r s1 hst)
    | createComment json id => exact same rfl rfl (createComment_nextPostId json id s r s1 hst)
    | updatePost json id =>
      have h2 : (PostController.updatePost json id s).2 = s1 :=
        congrArg Prod.snd (Option.some.inj hst)
      exact same rfl rfl (by rw [← h2, updatePost_nextPostId])
    | deletePost id =>
      have h2 : (PostController.deletePost id s).2 = s1 :=
        congrArg Prod.snd (Option.some.inj hst)
      exact same rfl rfl (by rw [← h2, deletePost_nextPostId])
    | publish id =>
      have h2 : (PostController.publish id s).2 = s1 :=
        congrArg Prod.snd (Option.some.inj hst)
      exact same rfl rfl (by rw [← h2, publish_nextPostId])
    | updateUser json id =>
      have h2 : (UserController.updateUser json id s).2 = s1 :=
        congrArg Prod.snd (Option.some.inj hst)
      exact same rfl rfl (by rw [← h2, updateUser_nextPostId])
    | getPost slug =>
      have h2 : (PostController.getPost slug s).2 = s1 :=
        congrArg Prod.snd (Option.some.inj hst)
      exact same rfl rfl (by rw [← h2, getPost_store])
    | getUser id =>
      have h2 : (UserController.getUser id s).2 = s1 :=
        congrArg Prod.snd (Option.some.inj hst)
      exact same rfl rfl (by rw [← h2, getUser_store])
    | login =>
      have h2 : s = s1 := congrArg Prod.snd (Option.some.inj hst)
      exact same rfl rfl (by rw [← h2])
    | me =>
      have h2 : s = s1 := congrArg Prod.snd (Option.some.inj hst)
      exact same rfl rfl (by rw [← h2])
    | getPosts =>
      have h2 : s = s1 := congrArg Prod.snd (Option.some.inj hst)
      exact same rfl rfl (by rw [← h2])
    | getCategories =>
      have h2 : s = s1 := congrArg Prod.snd (Option.some.inj hst)
      exact same rfl rfl (by rw [← h2])
    | getComments id =>
      have h2 : s = s1 := congrArg Prod.snd (Option.some.inj hst)
      exact same rfl rfl (by rw [← h2])

/-- The ids returned by the `createPost` calls of a run increase strictly and lie between
the value of `nextPostId` at the start and its value at the end. -/
theorem run_createdPostIds_increasing (cs : List Call) (s : DataStore)
    (rs : List HttpResponse) (s2 : DataStore) (h : run cs s = some (rs, s2)) :
    s.nextPostId ≤ s2.nextPostId
    ∧ (createdPostIds cs rs).Pairwise (fun a b => a < b)
    ∧ ∀ i ∈ createdPostIds cs rs, s.nextPostId ≤ i ∧ i < s2.nextPostId := by
  induction cs generalizing s rs with
  | nil =>
    simp only [run, Option.some.injEq, Prod.mk.injEq] at h
    rw [← h.1, ← h.2]
    exact ⟨le_refl _, List.Pairwise.nil, fun i hi => absurd hi (List.not_mem_nil i)⟩
  | cons c cs ih =>
    obtain ⟨r, s1, rs1, hst, hrun, rfl⟩ := run_cons_some c cs s rs s2 h
    obtain ⟨hle, hpw, hb⟩ := ih s1 rs1 hrun
    have hstep : s.nextPostId ≤ s1.nextPostId := (step_grows c s r s1 hst).2.1.next_le
    have same : (createdPostIds (c :: cs) (r :: rs1) = createdPostIds cs rs1) →
        s.nextPostId ≤ s2.nextPostId
        ∧ (createdPostIds (c :: cs) (r :: rs1)).Pairwise (fun a b => a < b)
        ∧ ∀ i ∈ createdPostIds (c :: cs) (r :: rs1), s.nextPostId ≤ i ∧ i < s2.nextPostId := by
      intro h1
      rw [h1]
      refine ⟨le_trans hstep hle, hpw, fun i hi => ?_⟩
      have := hb i hi
      omega
    cases c with
    | createPost u json =>
      obtain ⟨hr, hn⟩ := createPost_returns u json s r s1 hst
      have hc : createdPostIds (Call.createPost u json :: cs) (r :: rs1)
          = s.nextPostId :: createdPostIds cs rs1 := by
        simp only [createdPostIds, hr]
      rw [hc]
      refine ⟨le_trans hstep hle, List.Pairwise.cons (fun i hi => ?_) hpw, fun i hi => ?_⟩
      · have := hb i hi
        omega
      · rcases List.mem_cons.mp hi with rfl | hi
        · omega
        · have := hb i hi
          omega
    | _ => exact same rfl

theorem Grows.not_mem {ids ids1 : List Int} {next next1 : Int} (h : Grows ids ids1 next next1)
    (i : Int) (hlt : i < next) (hni : i ∉ ids) : i < next1 ∧ i ∉ ids1 := by
  rcases h with ⟨hsub, hle⟩ | ⟨rfl, rfl⟩
  · exact ⟨by omega, fun hi => hni (hsub.subset hi)⟩
  · refine ⟨by omega, fun hi => ?_⟩
    rcases List.mem_append.mp hi with hi | hi
    · exact hni hi
    · rw [List.mem_singleton] at hi
      omega

/-- An id below `nextPostId` that no post holds stays unheld through every run. -/
theorem run_id_stays_free (cs : List Call) (s : DataStore) (rs : List HttpResponse)
    (s2 : DataStore) (h : run cs s = some (rs, s2)) (i : Int) (hlt : i < s.nextPostId)
    (hni : i ∉ s.posts.map (fun p => p.id)) :
    i < s2.nextPostId ∧ i ∉ s2.posts.map (fun p => p.id) := by
  induction cs generalizing s rs with
  | nil =>
    simp only [run, Option.some.injEq, Prod.mk.injEq] at h
    rw [← h.2]
    exact ⟨hlt, hni⟩
  | cons c cs ih =>
    obtain ⟨r, s1, rs1, hst, hrun, _⟩ := run_cons_some c cs s rs s2 h
    obtain ⟨h1, h2⟩ := (step_grows c s r s1 hst).2.1.not_mem i hlt hni
    exact ih s1 rs1 hrun h1 h2

theorem getPosts_items_id (l : List Post) (it : PostItem)
    (h : it ∈ (l.filter (fun p => p.is_published)).map PostItem.ofPost) :
    ∃ q ∈ l, q.id = it.id := by
  simp only [List.mem_map, List.mem_filter] at h
  obtain ⟨q, ⟨hq, _⟩, rfl⟩ := h
  exact ⟨q, hq, rfl⟩

theorem items_filter_eq_nil (l : List Post) (i : Int) (h : ∀ q ∈ l, q.id ≠ i) :
    ((l.filter (fun p => p.is_published)).map PostItem.ofPost).filter
      (fun it => decide (it.id = i)) = [] := by
  rw [List.filter_eq_nil_iff]
  intro it hit
  obtain ⟨q, hq, hid⟩ := getPosts_items_id l it hit
  simp only [decide_eq_true_eq]
  rw [← hid]
  exact h q hq

theorem items_filter_eq_self (l : List Post) (i : Int) (h : ∀ q ∈ l, q.id ≠ i) :
    ((l.filter (fun p => p.is_published)).map PostItem.ofPost).filter
      (fun it => decide (it.id ≠ i))
      = (l.filter (fun p => p.is_published)).map PostItem.ofPost := by
  rw [List.filter_eq_self]
  intro it hit
  obtain ⟨q, hq, hid⟩ := getPosts_items_id l it hit
  simp only [decide_eq_true_eq]
  rw [← hid]
  exact h q hq

theorem nodup_ids_split (pre post : List Post) (p : Post)
    (h : ((pre ++ p :: post).map (fun q => q.id)).Nodup) :
    (∀ q ∈ pre, q.id ≠ p.id) ∧ (∀ q ∈ post, q.id ≠ p.id) := by
  rw [List.map_append, List.map_cons, List.nodup_append] at h
  obtain ⟨_, h2, h3⟩ := h
  rw [List.nodup_cons] at h2
  refine ⟨fun q hq heq => ?_, fun q hq heq => ?_⟩
  · exact h3 (List.mem_map_of_mem (fun q => q.id) hq) (by rw [heq]; exact List.mem_cons_self _ _)
  · exact h2.1 (by rw [← heq]; exact List.mem_map_of_mem (fun q => q.id) hq)

/-- A handler call has no defined result only when `createPost` dereferences a null
body or when a creating handler, failing in its member read or not, increments a counter
that holds `INT_MAX`. -/
theorem step_eq_none_iff (c : Call) (s : DataStore) :
    step c s = none ↔
      match c with
      | Call.registerUser (some _) => s.nextUserId = INT_MAX
      | Call.createPost _ json => s.nextPostId = INT_MAX ∨ json = none
      | Call.createCategory (some j) => isMember j.name = true ∧ s.nextCategoryId = INT_MAX
      | Call.createComment (some j) _ => isMember j.content = true ∧ s.nextCommentId = INT_MAX
      | Call.createPostThrows => s.nextPostId = INT_MAX
      | Call.createCategoryThrows => s.nextCategoryId = INT_MAX
      | Call.createCommentThrows => s.nextCommentId = INT_MAX
      | _ => False := by
  cases c with
  | registerUser json =>
    cases json with
    | none => simp [step, AuthController.registerUser]
    | some j =>
      by_cases ho : s.nextUserId = INT_MAX <;> simp [step, AuthController.registerUser, ho]
  | createPost u json =>
    cases json with
    | none => simp [step, PostController.createPost]
    | some j =>
      by_cases ho : s.nextPostId = INT_MAX <;> simp [step, PostController.createPost, ho]
  | createCategory json =>
    cases json with
    | none => simp [step, CategoryController.createCategory]
    | some j =>
      by_cases hm : isMember j.name = true <;> by_cases ho : s.nextCategoryId = INT_MAX <;>
        simp [step, CategoryController.createCategory, hm, ho]
  | createComment json id =>
    cases json with
    | none => simp [step, CommentController.createComment]
    | some j =>
      by_cases hm : isMember j.content = true <;> by_cases ho : s.nextCommentId = INT_MAX <;>
        simp [step, CommentController.createComment, hm, ho]
  | login => simp [step]
  | me => simp [step]
  | getPosts => simp [step]
  | getPost slug => simp [step]
  | updatePost json id => simp [step]
  | deletePost id => simp [step]
  | publish id => simp [step]
  | getCategories => simp [step]
  | getComments id => simp [step]
  | getUser id => simp [step]
  | updateUser json id => simp [step]
  | createPostThrows =>
    by_cases ho : s.nextPostId = INT_MAX <;> simp [step, PostController.createPostThrows, ho]
  | createCategoryThrows =>
    by_cases ho : s.nextCategoryId = INT_MAX <;>
      simp [step, CategoryController.createCategoryThrows, ho]
  | createCommentThrows =>
    by_cases ho : s.nextCommentId = INT_MAX <;>
      simp [step, CommentController.createCommentThrows, ho]

theorem getPostLoop_split (slug : String) (pre : List Post) (p : Post) (post : List Post)
    (hpre : ∀ q ∈ pre, q.slug ≠ slug) (hp : p.slug = slug) :
    PostController.getPostLoop slug (pre ++ p :: post) = some p := by
  induction pre with
  | nil => simp [PostController.getPostLoop, hp]
  | cons a pre ih =>
    have ha : a.slug ≠ slug := hpre a (List.mem_cons_self _ _)
    have ih2 := ih (fun q hq => hpre q (List.mem_cons_of_mem _ hq))
    simp [PostController.getPostLoop, ha, ih2]

theorem getCommentsLoop_eq (id : Int) (arr : List CommentItem) (cs : List Comment) :
    CommentController.getCommentsLoop id arr cs
      = arr ++ (cs.filter (fun c => decide (c.post_id = id))).map CommentItem.ofComment := by
  induction cs generalizing arr with
  | nil => simp [CommentController.getCommentsLoop]
  | cons c cs ih =>
    by_cases hc : c.post_id = id
    · simp [CommentController.getCommentsLoop, hc, ih, CommentItem.ofComment]
    · simp [CommentController.getCommentsLoop, hc, ih]

theorem updateUserLoop_split (json : Option JsonObject) (id : Int) (pre : List User) (u : User)
    (post : List User) (hpre : ∀ q ∈ pre, q.id ≠ id) (hu : u.id = id) :
    UserController.updateUserLoop json id (pre ++ u :: post)
      = some (pre ++ { u with bio := (json.bind (fun j => j.bio)).getD u.bio } :: post) := by
  subst hu
  induction pre with
  | nil =>
    cases json with
    | none => simp [UserController.updateUserLoop]
    | some j =>
      cases hb : j.bio with
      | none => simp [UserController.updateUserLoop, isMember, hb]
      | some b => simp [UserController.updateUserLoop, isMember, hb, asString]
  | cons a pre ih =>
    have ha : a.id ≠ u.id := hpre a (List.mem_cons_self _ _)
    have ih2 := ih (fun q hq => hpre q (List.mem_cons_of_mem _ hq))
    simp [UserController.updateUserLoop, ha, ih2]

theorem updateUserLoop_none (json : Option JsonObject) (id : Int) (us : List User)
    (h : ∀ q ∈ us, q.id ≠ id) : UserController.updateUserLoop json id us = none := by
  induction us with
  | nil => rfl
  | cons a us ih =>
    have ha : a.id ≠ id := h a (List.mem_cons_self _ _)
    have ih2 := ih (fun q hq => h q (List.mem_cons_of_mem _ hq))
    simp [UserController.updateUserLoop, ha, ih2]

theorem not_forall_ne_exists {α : Type} (l : List α) (P : α → Prop)
    (h : ¬ ∀ x ∈ l, ¬ P x) : ∃ x ∈ l, P x := by
  by_contra hc
  exact h (fun x hx hP => hc ⟨x, hx, hP⟩)

theorem getComments_response (s : DataStore) (id : Int) :
    (CommentController.getComments id s).1
      = ⟨200, Body.comments
          ((s.comments.filter (fun c => decide (c.post_id = id))).map
            CommentItem.ofComment)⟩ := by
  simp only [CommentController.getComments, getCommentsLoop_eq, List.nil_append]
  rfl

theorem updatePostLoop_id_slug (j : JsonObject) (id : Int) (ps ps1 : List Post)
    (h : PostController.updatePostLoop j id ps = some ps1) :
    ps1.map (fun p => (p.id, p.slug)) = ps.map (fun p => (p.id, p.slug)) := by
  induction ps generalizing ps1 with
  | nil => simp [PostController.updatePostLoop] at h
  | cons a ps ih =>
    by_cases ha : a.id = id
    · simp only [PostController.updatePostLoop, if_pos ha, Option.some.injEq] at h
      subst h
      simp [applyUpdate_eq]
    · simp only [PostController.updatePostLoop, if_neg ha] at h
      cases hrec : PostController.updatePostLoop j id ps with
      | none => simp [hrec] at h
      | some ps2 =>
        simp only [hrec, Option.some.injEq] at h
        subst h
        simp [ih ps2 hrec]

theorem updatePost_id_slug (json : Option JsonObject) (id : Int) (s : DataStore) :
    (PostController.updatePost json id s).2.posts.map (fun p => (p.id, p.slug))
      = s.posts.map (fun p => (p.id, p.slug)) := by
  cases json with
  | none => rfl
  | some j =>
    cases hl : PostController.updatePostLoop j id s.posts with
    | none => simp only [PostController.updatePost, hl]
    | some ps =>
      simp only [PostController.updatePost, hl]
      exact updatePostLoop_id_slug j id _ _ hl

theorem getPostLoop_congr (slug : String) (ps ps1 : List Post)
    (h : ps1.map (fun p => (p.id, p.slug)) = ps.map (fun p => (p.id, p.slug))) :
    (PostController.getPostLoop slug ps1).map (fun p => p.id)
      = (PostController.getPostLoop slug ps).map (fun p => p.id) := by
  induction ps generalizing ps1 with
  | nil =>
    cases ps1 with
    | nil => rfl
    | cons b ps1 => simp at h
  | cons a ps ih =>
    cases ps1 with
    | nil => simp at h
    | cons b ps1 =>
      simp only [List.map_cons, List.cons.injEq, Prod.mk.injEq] at h
      obtain ⟨⟨hid, hslug⟩, htl⟩ := h
      by_cases hb : b.slug = slug
      · have ha : a.slug = slug := by rw [← hslug]; exact hb
        simp [PostController.getPostLoop, ha, hb, hid]
      · have ha : a.slug ≠ slug := by rw [← hslug]; exact hb
        simp only [PostController.getPostLoop, if_neg ha, if_neg hb]
        exact ih ps1 htl

theorem getUserLoop_split (id : Int) (pre : List User) (u : User) (post : List User)
    (hpre : ∀ q ∈ pre, q.id ≠ id) (hu : u.id = id) :
    UserController.getUserLoop id (pre ++ u :: post) = some u := by
  induction pre with
  | nil => simp [UserController.getUserLoop, hu]
  | cons a pre ih =>
    have ha : a.id ≠ id := hpre a (List.mem_cons_self _ _)
    have ih2 := ih (fun q hq => hpre q (List.mem_cons_of_mem _ hq))
    simp [UserController.getUserLoop, ha, ih2]

theorem getUserLoop_none (id : Int) (us : List User) (h : ∀ q ∈ us, q.id ≠ id) :
    UserController.getUserLoop id us = none := by
  induction us with
  | nil => rfl
  | cons a us ih =>
    have ha : a.id ≠ id := h a (List.mem_cons_self _ _)
    have ih2 := ih (fun q hq => h q (List.mem_cons_of_mem _ hq))
    simp [UserController.getUserLoop, ha, ih2]

theorem getUserLoop_withoutSecrets (id : Int) (us : List User) :
    UserController.getUserLoop id (us.map userWithoutSecrets)
      = (UserController.getUserLoop id us).map userWithoutSecrets := by
  induction us with
  | nil => rfl
  | cons a us ih =>
    by_cases ha : a.id = id
    · have ha2 : (userWithoutSecrets a).id = id := ha
      simp [UserController.getUserLoop, ha, ha2]
    · have ha2 : ¬ (userWithoutSecrets a).id = id := ha
      simp only [List.map_cons, UserController.getUserLoop, if_neg ha, if_neg ha2]
      exact ih

/-- The response of `getUser`, computed from the user the loop found with email and
password blanked out. -/
theorem getUser_response (id : Int) (s : DataStore) :
    (UserController.getUser id s).1
      = match (UserController.getUserLoop id s.users).map userWithoutSecrets with
        | some u => newHttpJsonResponse (Body.user u.id u.username u.role u.bio)
        | none => newHttpResponse k404NotFound := by
  unfold UserController.getUser
  cases UserController.getUserLoop id s.users <;> rfl

/-! ## The claims -/

/-- C1: whenever `createPost` runs on a body (and the counter can still be incremented),
it appends a post whose title is the body's title and whose slug, also returned in the
response, is that title with every ASCII upper-case letter lower-cased and every space
replaced by a hyphen, all other characters in place; slug and title have the same
length, and the title "Hello World" gives "hello-world". -/
theorem createPost_slug (u : Indeterminate) (j : JsonObject) (s : DataStore)
    (h : s.nextPostId ≠ INT_MAX) :
    (∃ p : Post,
      PostController.createPost u (some j) s
        = some (newHttpJsonResponse (Body.postCreated s.nextPostId p.slug),
            { s with posts := s.posts ++ [p], nextPostId := s.nextPostId + 1 })
      ∧ p.title = asString j.title
      ∧ p.slug = specSlug (asString j.title)
      ∧ p.slug.length = p.title.length)
    ∧ slugify "Hello World" = "hello-world" := by
  refine ⟨⟨{ id := s.nextPostId, author_id := u.author_id, title := asString j.title,
              slug := slugify (asString j.title), content := asString j.content,
              is_published := false, created_at := "", tags := [],
              category_id := u.category_id },
            ?_, rfl, slugify_eq_specSlug _, slugify_length _⟩, by decide⟩
  simp only [PostController.createPost, if_neg h]

theorem createPost_slug_witness :
    (∃ p : Post,
      PostController.createPost ⟨0, 0⟩ (some { title := some "Hello World", content := some "Body" })
          DataStore.initial
        = some (newHttpJsonResponse (Body.postCreated DataStore.initial.nextPostId p.slug),
            { DataStore.initial with
              posts := DataStore.initial.posts ++ [p]
              nextPostId := DataStore.initial.nextPostId + 1 })
      ∧ p.title = asString (some "Hello World")
      ∧ p.slug = specSlug (asString (some "Hello World"))
      ∧ p.slug.length = p.title.length)
    ∧ slugify "Hello World" = "hello-world" :=
  createPost_slug ⟨0, 0⟩ { title := some "Hello World", content := some "Body" }
    DataStore.initial (by decide)

/-- C2: for every store, `getPosts` answers 200 with exactly the published posts of the
store, in the order of the store, each as its id, title and slug; every entry of the
answer comes from a published post; the store is unchanged. -/
theorem getPosts_published_only (s : DataStore) :
    PostController.getPosts s
        = (⟨200, Body.posts ((s.posts.filter (fun p => p.is_published)).map PostItem.ofPost)⟩, s)
    ∧ List.Sublist (s.posts.filter (fun p => p.is_published)) s.posts
    ∧ (∀ it ∈ PostController.getPostsLoop [] s.posts,
        ∃ p ∈ s.posts, p.is_published = true ∧ it = PostItem.ofPost p)
    ∧ (PostController.getPosts s).2 = s := by
  refine ⟨?_, List.filter_sublist _, ?_, rfl⟩
  · simp [PostController.getPosts, getPostsLoop_eq, newHttpJsonResponse, k200OK]
  · intro it hit
    rw [getPostsLoop_eq] at hit
    simp only [List.nil_append, List.mem_map, List.mem_filter] at hit
    obtain ⟨p, ⟨hp, hpub⟩, rfl⟩ := hit
    exact ⟨p, hp, hpub, rfl⟩

/-- C5, as stated, fails: after two posts were created with the same title, the store
(a reachable one) holds two posts with slug "a"; deleting post 1 succeeds, and `getPost`
with the deleted post's slug answers 200 with post 2, not 404. -/
theorem deletePost_getPost_same_slug :
    Reachable sameTitleStore
    ∧ (∃ p ∈ sameTitleStore.posts, p.id = 1 ∧ p.slug = "a")
    ∧ PostController.deletePost 1 sameTitleStore
        = (⟨200, Body.status "deleted"⟩,
           { sameTitleStore with posts := sameTitleStore.posts.tail })
    ∧ PostController.getPost "a" (PostController.deletePost 1 sameTitleStore).2
        = (⟨200, Body.post 2 "A" "y" 0⟩, (PostController.deletePost 1 sameTitleStore).2)
    ∧ (PostController.getPost "a" (PostController.deletePost 1 sameTitleStore).2).1.status
        ≠ k404NotFound := by
  refine ⟨⟨sameTitleCalls, [⟨200, Body.postCreated 1 "a"⟩, ⟨200, Body.postCreated 2 "a"⟩],
    by decide⟩, ⟨_, List.mem_cons_self _ _, rfl, rfl⟩, by decide, by decide, by decide⟩

/-- C5, amended: for every store and every post in it whose slug no post of another id
carries, `deletePost` on that post's id succeeds and `getPost` with that post's slug
then answers 404. -/
theorem deletePost_getPost_notFound (s : DataStore) (p : Post) (hp : p ∈ s.posts)
    (huniq : ∀ q ∈ s.posts, q.slug = p.slug → q.id = p.id) :
    (PostController.deletePost p.id s).1 = ⟨200, Body.status "deleted"⟩
    ∧ PostController.getPost p.slug (PostController.deletePost p.id s).2
        = (⟨404, Body.noBody⟩, (PostController.deletePost p.id s).2) := by
  have hne : ¬ ∀ q ∈ s.posts, q.id ≠ p.id := fun h => h p hp rfl
  rw [deletePost_eq, if_neg hne]
  refine ⟨rfl, ?_⟩
  have hnone : PostController.getPostLoop p.slug
      (s.posts.filter (fun q => decide (q.id ≠ p.id))) = none := by
    apply getPostLoop_none
    intro q hq hslug
    rw [List.mem_filter] at hq
    exact (of_decide_eq_true hq.2) (huniq q hq.1 hslug)
  simp only [PostController.getPost, hnone, newHttpResponse, k404NotFound]

theorem deletePost_getPost_notFound_witness :
    (PostController.deletePost 1 exampleStore).1 = ⟨200, Body.status "deleted"⟩
    ∧ PostController.getPost "hello-world" (PostController.deletePost 1 exampleStore).2
        = (⟨404, Body.noBody⟩, (PostController.deletePost 1 exampleStore).2) :=
  deletePost_getPost_notFound exampleStore
    { id := 1, author_id := 0, title := "Hello World", slug := "hello-world",
      content := "Body", is_published := false, created_at := "", tags := ["a", "b"],
      category_id := 0 }
    (List.mem_cons_self _ _) (by decide)

/-- C8: for every store and id, `deletePost` answers 404 exactly when no post has that
id, and then the store is unchanged; otherwise it answers 200 and the posts become the
original posts without those of that id, the others unmodified and in their order (when
one entry has the id: the sequence before it followed by the sequence after it), while
`nextPostId`, the users, the categories, the comments and the other counters stay. -/
theorem deletePost_spec (s : DataStore) (id : Int) :
    ((PostController.deletePost id s).1.status = k404NotFound ↔ ∀ p ∈ s.posts, p.id ≠ id)
    ∧ ((∀ p ∈ s.posts, p.id ≠ id) →
        PostController.deletePost id s = (⟨404, Body.noBody⟩, s))
    ∧ ((∃ p ∈ s.posts, p.id = id) →
        PostController.deletePost id s
          = (⟨200, Body.status "deleted"⟩,
             { s with posts := s.posts.filter (fun p => decide (p.id ≠ id)) }))
    ∧ (∀ pre p post, s.posts = pre ++ p :: post → p.id = id →
        (∀ q ∈ pre, q.id ≠ id) → (∀ q ∈ post, q.id ≠ id) →
        PostController.deletePost id s
          = (⟨200, Body.status "deleted"⟩, { s with posts := pre ++ post })) := by
  have hfound : (∃ p ∈ s.posts, p.id = id) →
      PostController.deletePost id s
        = (⟨200, Body.status "deleted"⟩,
           { s with posts := s.posts.filter (fun p => decide (p.id ≠ id)) }) := by
    rintro ⟨p, hp, hid⟩
    rw [deletePost_eq, if_neg (fun h => h p hp hid)]
    rfl
  refine ⟨?_, ?_, hfound, ?_⟩
  · rw [deletePost_eq]
    by_cases h : ∀ p ∈ s.posts, p.id ≠ id
    · rw [if_pos h]
      exact ⟨fun _ => h, fun _ => rfl⟩
    · rw [if_neg h]
      refine ⟨fun h2 => ?_, fun h2 => absurd h2 h⟩
      have h3 : k200OK = k404NotFound := h2
      exact absurd h3 (by decide)
  · intro h
    rw [deletePost_eq, if_pos h]
    rfl
  · intro pre p post hl hp hpre hpost
    rw [hfound ⟨p, by rw [hl]; simp, hp⟩, hl]
    have h1 : pre.filter (fun q : Post => decide (q.id ≠ id)) = pre :=
      List.filter_eq_self.mpr (fun q hq => decide_eq_true (hpre q hq))
    have h2 : post.filter (fun q : Post => decide (q.id ≠ id)) = post :=
      List.filter_eq_self.mpr (fun q hq => decide_eq_true (hpost q hq))
    have h3 : decide (p.id ≠ id) = false := decide_eq_false (not_not.mpr hp)
    rw [List.filter_append, List.filter_cons, h1, h2, h3]
    rfl

/-- C6, as stated, fails: a `createPost` request whose title cannot be read as a string
(for instance the body `{"title": [], "content": "x"}`) takes an id and appends nothing.  After a first post (id 1) and one such request, the
next creation returns 3, not 2; and when such a request comes first, the first id
returned is 2, not 1. -/
theorem createPost_ids_gap :
    run createFailCreate DataStore.initial
      = some ([⟨200, Body.postCreated 1 "a"⟩, ⟨500, Body.noBody⟩,
               ⟨200, Body.postCreated 3 "b"⟩],
              { posts := [{ id := 1, author_id := 0, title := "A", slug := "a", content := "x",
                            is_published := false, created_at := "", tags := [],
                            category_id := 0 },
                          { id := 3, author_id := 0, title := "B", slug := "b", content := "y",
                            is_published := false, created_at := "", tags := [],
                            category_id := 0 }],
                nextPostId := 4 })
    ∧ createdPostIds createFailCreate
        [⟨200, Body.postCreated 1 "a"⟩, ⟨500, Body.noBody⟩, ⟨200, Body.postCreated 3 "b"⟩]
      = [1, 3]
    ∧ run failCreate DataStore.initial
      = some ([⟨500, Body.noBody⟩, ⟨200, Body.postCreated 2 "a"⟩],
              { posts := [{ id := 2, author_id := 0, title := "A", slug := "a", content := "x",
                            is_published := false, created_at := "", tags := [],
                            category_id := 0 }],
                nextPostId := 3 })
    ∧ createdPostIds failCreate [⟨500, Body.noBody⟩, ⟨200, Body.postCreated 2 "a"⟩] = [2] := by
  refine ⟨by decide, by decide, by decide, by decide⟩

/-- C6, amended: in every sequence of handler calls served from the initial store, the
id returned by each successful `createPost` is greater than every id returned by an
earlier one, whatever other calls (deletions included) lie in between, and is at least 1
and below the final `nextPostId`; `nextPostId` ends at 1 plus the number of ids returned
plus the number of `createPost` requests that failed in a member read; and when no such
request failed, the ids returned are 1, 2, 3, ... in the order of the calls: the first
is 1 and each is the previous one plus 1. -/
theorem createPost_ids_increasing (cs : List Call) (rs : List HttpResponse) (s : DataStore)
    (h : run cs DataStore.initial = some (rs, s)) :
    (createdPostIds cs rs).Pairwise (fun a b => a < b)
    ∧ (∀ i ∈ createdPostIds cs rs, 1 ≤ i ∧ i < s.nextPostId)
    ∧ s.nextPostId
        = 1 + ((createdPostIds cs rs).length : Int) + (failedPostCreations cs : Int)
    ∧ (failedPostCreations cs = 0 →
        createdPostIds cs rs
          = (List.range (createdPostIds cs rs).length).map (fun k : Nat => (k : Int) + 1)) := by
  obtain ⟨h1, h2⟩ := run_createdPostIds cs DataStore.initial rs s h
  obtain ⟨_, hpw, hb⟩ := run_createdPostIds_increasing cs DataStore.initial rs s h
  refine ⟨hpw, hb, h1, ?_⟩
  intro hz
  conv_lhs => rw [h2 hz]
  apply List.map_congr_left
  intro k _
  show (1 : Int) + (k : Int) = (k : Int) + 1
  ring

theorem createPost_ids_increasing_witness :
    (createdPostIds createDeleteCreate createDeleteCreateResponses).Pairwise
        (fun a b => a < b)
    ∧ (∀ i ∈ createdPostIds createDeleteCreate createDeleteCreateResponses,
        1 ≤ i ∧ i < createDeleteCreateStore.nextPostId)
    ∧ createDeleteCreateStore.nextPostId
        = 1 + ((createdPostIds createDeleteCreate createDeleteCreateResponses).length : Int)
          + (failedPostCreations createDeleteCreate : Int)
    ∧ (failedPostCreations createDeleteCreate = 0 →
        createdPostIds createDeleteCreate createDeleteCreateResponses
          = (List.range
              (createdPostIds createDeleteCreate createDeleteCreateResponses).length).map
              (fun k : Nat => (k : Int) + 1)) :=
  createPost_ids_increasing createDeleteCreate createDeleteCreateResponses
    createDeleteCreateStore (by decide)

/-- C10: `publish` is idempotent.  For every store and id, a second `publish(id)` gives
the same response and the same store as the first; `publish(id)` answers 404 exactly when
no post has the id, and then the store is unchanged; otherwise it answers 200 and the
first post with the id has `is_published = true`, whatever it was, nothing else being
changed. -/
theorem publish_idempotent (s : DataStore) (id : Int) :
    PostController.publish id (PostController.publish id s).2 = PostController.publish id s
    ∧ ((PostController.publish id s).1.status = k404NotFound ↔ ∀ p ∈ s.posts, p.id ≠ id)
    ∧ ((∀ p ∈ s.posts, p.id ≠ id) →
        PostController.publish id s = (⟨404, Body.noBody⟩, s))
    ∧ ((∃ p ∈ s.posts, p.id = id) →
        ∃ pre p post, s.posts = pre ++ p :: post ∧ (∀ q ∈ pre, q.id ≠ id) ∧ p.id = id
          ∧ PostController.publish id s
              = (⟨200, Body.status "published"⟩,
                 { s with posts := pre ++ { p with is_published := true } :: post })) := by
  have hnone : (∀ p ∈ s.posts, p.id ≠ id) →
      PostController.publish id s = (⟨404, Body.noBody⟩, s) := by
    intro h
    simp only [PostController.publish, publishLoop_none id s.posts h]
    rfl
  have hsome : (∃ p ∈ s.posts, p.id = id) →
      ∃ pre p post, s.posts = pre ++ p :: post ∧ (∀ q ∈ pre, q.id ≠ id) ∧ p.id = id
        ∧ PostController.publish id s
            = (⟨200, Body.status "published"⟩,
               { s with posts := pre ++ { p with is_published := true } :: post }) := by
    intro h
    obtain ⟨pre, p, post, hl, hpre, hp⟩ := exists_first_split (fun q : Post => q.id = id) _ h
    refine ⟨pre, p, post, hl, hpre, hp, ?_⟩
    simp only [PostController.publish, hl, publishLoop_split id pre p post hpre hp]
    rfl
  refine ⟨?_, ?_, hnone, hsome⟩
  · by_cases h : ∀ p ∈ s.posts, p.id ≠ id
    · rw [hnone h]
      exact hnone h
    · have h2 : ∃ p ∈ s.posts, p.id = id := by
        by_contra hc
        exact h (fun p hp hid => hc ⟨p, hp, hid⟩)
      obtain ⟨pre, p, post, _, hpre, hp, heq⟩ := hsome h2
      rw [heq]
      simp only [PostController.publish,
        publishLoop_split id pre { p with is_published := true } post hpre hp]
      rfl
  · by_cases h : ∀ p ∈ s.posts, p.id ≠ id
    · rw [hnone h]
      exact ⟨fun _ => h, fun _ => rfl⟩
    · have h2 : ∃ p ∈ s.posts, p.id = id := by
        by_contra hc
        exact h (fun p hp hid => hc ⟨p, hp, hid⟩)
      obtain ⟨pre, p, post, _, _, _, heq⟩ := hsome h2
      rw [heq]
      refine ⟨fun h3 => ?_, fun h3 => absurd h3 h⟩
      have h4 : (200 : Nat) = k404NotFound := h3
      exact absurd h4 (by decide)

/-- C7: in every store reachable from the initial store, each of the four collections
holds pairwise distinct ids in strictly increasing order, each at least 1 and below the
collection's counter; no handler call, on any store, decreases any counter; and once
`deletePost` has removed a post's id from a reachable store, no later sequence of handler
calls brings a post with that id back. -/
theorem reachable_ids_in_order (s : DataStore) (hs : Reachable s) :
    (IdsInOrder (s.users.map (fun u => u.id)) s.nextUserId
      ∧ IdsInOrder (s.posts.map (fun p => p.id)) s.nextPostId
      ∧ IdsInOrder (s.categories.map (fun c => c.id)) s.nextCategoryId
      ∧ IdsInOrder (s.comments.map (fun c => c.id)) s.nextCommentId)
    ∧ (∀ (s0 : DataStore) (c : Call) (r : HttpResponse) (s1 : DataStore),
        step c s0 = some (r, s1) →
        s0.nextUserId ≤ s1.nextUserId ∧ s0.nextPostId ≤ s1.nextPostId
        ∧ s0.nextCategoryId ≤ s1.nextCategoryId ∧ s0.nextCommentId ≤ s1.nextCommentId)
    ∧ (∀ (id : Int) (cs : List Call) (rs : List HttpResponse) (s2 : DataStore),
        (∃ p ∈ s.posts, p.id = id) →
        run cs (PostController.deletePost id s).2 = some (rs, s2) →
        ∀ q ∈ s2.posts, q.id ≠ id) := by
  have hw := reachable_wellFormed s hs
  refine ⟨⟨hw.1.1, hw.2.1.1, hw.2.2.1.1, hw.2.2.2.1⟩, ?_, ?_⟩
  · intro s0 c r s1 hst
    obtain ⟨hu, hp, hc, hm⟩ := step_grows c s0 r s1 hst
    exact ⟨hu.next_le, hp.next_le, hc.next_le, hm.next_le⟩
  · intro id cs rs s2 hex hrun q hq hid
    obtain ⟨p, hp, hpid⟩ := hex
    have hlt : id < s.nextPostId := by
      have := (hw.2.1.1.2.2 p.id (List.mem_map_of_mem (fun p => p.id) hp)).2
      omega
    have hdel : (PostController.deletePost id s).2
        = { s with posts := s.posts.filter (fun p => decide (p.id ≠ id)) } := by
      rw [deletePost_eq, if_neg (fun h => h p hp hpid)]
    rw [hdel] at hrun
    have hfree := run_id_stays_free cs _ rs s2 hrun id hlt (by
      intro hmem
      obtain ⟨q1, hq1, hq1id⟩ := List.mem_map.mp hmem
      have hq2 : q1 ∈ s.posts.filter (fun p => decide (p.id ≠ id)) := hq1
      rw [List.mem_filter] at hq2
      exact (of_decide_eq_true hq2.2) hq1id)
    exact hfree.2 (List.mem_map.mpr ⟨q, hq, hid⟩)

theorem reachable_ids_in_order_witness :
    (IdsInOrder (sameTitleStore.users.map (fun u => u.id)) sameTitleStore.nextUserId
      ∧ IdsInOrder (sameTitleStore.posts.map (fun p => p.id)) sameTitleStore.nextPostId
      ∧ IdsInOrder (sameTitleStore.categories.map (fun c => c.id)) sameTitleStore.nextCategoryId
      ∧ IdsInOrder (sameTitleStore.comments.map (fun c => c.id)) sameTitleStore.nextCommentId)
    ∧ (∀ (s0 : DataStore) (c : Call) (r : HttpResponse) (s1 : DataStore),
        step c s0 = some (r, s1) →
        s0.nextUserId ≤ s1.nextUserId ∧ s0.nextPostId ≤ s1.nextPostId
        ∧ s0.nextCategoryId ≤ s1.nextCategoryId ∧ s0.nextCommentId ≤ s1.nextCommentId)
    ∧ (∀ (id : Int) (cs : List Call) (rs : List HttpResponse) (s2 : DataStore),
        (∃ p ∈ sameTitleStore.posts, p.id = id) →
        run cs (PostController.deletePost id sameTitleStore).2 = some (rs, s2) →
        ∀ q ∈ s2.posts, q.id ≠ id) :=
  reachable_ids_in_order sameTitleStore
    ⟨sameTitleCalls, [⟨200, Body.postCreated 1 "a"⟩, ⟨200, Body.postCreated 2 "a"⟩], by decide⟩

/-- C9: for every reachable store and every post in it, `publish` on the post's id
answers 200, and the list that `getPosts` then returns has exactly one entry with that
id, carrying the post's title and slug, while its entries of other ids are those that
`getPosts` returned before the publish. -/
theorem publish_then_listed (s : DataStore) (hs : Reachable s) (p : Post) (hp : p ∈ s.posts) :
    (PostController.publish p.id s).1 = ⟨200, Body.status "published"⟩
    ∧ ∃ items items0 : List PostItem,
        (PostController.getPosts (PostController.publish p.id s).2).1 = ⟨200, Body.posts items⟩
        ∧ (PostController.getPosts s).1 = ⟨200, Body.posts items0⟩
        ∧ items.filter (fun it => decide (it.id = p.id)) = [⟨p.id, p.title, p.slug⟩]
        ∧ items.filter (fun it => decide (it.id ≠ p.id))
            = items0.filter (fun it => decide (it.id ≠ p.id)) := by
  have hw := reachable_wellFormed s hs
  obtain ⟨pre, post, hl⟩ := List.append_of_mem hp
  have hnd : ((pre ++ p :: post).map (fun q => q.id)).Nodup := by
    rw [← hl]
    exact hw.2.1.1.1
  obtain ⟨hpre, hpost⟩ := nodup_ids_split pre post p hnd
  have hpub : PostController.publish p.id s
      = (⟨200, Body.status "published"⟩,
         { s with posts := pre ++ { p with is_published := true } :: post }) := by
    simp only [PostController.publish, hl, publishLoop_split p.id pre p post hpre rfl]
    rfl
  refine ⟨by rw [hpub],
    ((pre ++ { p with is_published := true } :: post).filter
      (fun q => q.is_published)).map PostItem.ofPost,
    (s.posts.filter (fun q => q.is_published)).map PostItem.ofPost, ?_, ?_, ?_, ?_⟩
  · rw [hpub]
    simp only [PostController.getPosts, getPostsLoop_eq, List.nil_append]
    rfl
  · simp only [PostController.getPosts, getPostsLoop_eq, List.nil_append]
    rfl
  · have e1 := items_filter_eq_nil pre p.id hpre
    have e2 := items_filter_eq_nil post p.id hpost
    simp only [List.filter_append, List.filter_cons, List.map_append, List.map_cons, if_true,
      e1, e2, PostItem.ofPost, decide_True, List.nil_append]
  · have e1 := items_filter_eq_self pre p.id hpre
    have e2 := items_filter_eq_self post p.id hpost
    rw [hl]
    by_cases hpp : p.is_published = true
    · simp only [List.filter_append, List.filter_cons, List.map_append, List.map_cons, if_true,
        e1, e2, PostItem.ofPost, hpp, ne_eq, not_true_eq_false, decide_False,
        Bool.false_eq_true, if_false]
    · simp only [List.filter_append, List.filter_cons, List.map_append, List.map_cons, if_true,
        e1, e2, PostItem.ofPost, hpp, ne_eq, not_true_eq_false, decide_False,
        Bool.false_eq_true, if_false]

theorem publish_then_listed_witness :
    (PostController.publish 2 sameTitleStore).1 = ⟨200, Body.status "published"⟩
    ∧ ∃ items items0 : List PostItem,
        (PostController.getPosts (PostController.publish 2 sameTitleStore).2).1
          = ⟨200, Body.posts items⟩
        ∧ (PostController.getPosts sameTitleStore).1 = ⟨200, Body.posts items0⟩
        ∧ items.filter (fun it => decide (it.id = 2)) = [⟨2, "A", "a"⟩]
        ∧ items.filter (fun it => decide (it.id ≠ 2))
            = items0.filter (fun it => decide (it.id ≠ 2)) :=
  publish_then_listed sameTitleStore
    ⟨sameTitleCalls, [⟨200, Body.postCreated 1 "a"⟩, ⟨200, Body.postCreated 2 "a"⟩], by decide⟩
    { id := 2, author_id := 0, title := "A", slug := "a", content := "y",
      is_published := false, created_at := "", tags := [], category_id := 0 }
    (List.mem_cons_of_mem _ (List.mem_cons_self _ _))

/-- C11: for every store and slug, `getPost` answers 404 exactly when no post's slug is
the given string, and otherwise answers 200 with the id, title, content and views of the
first post, in the order of the store, whose slug is that string, published or not; in
both cases the store, the views of the post included, is unchanged. -/
theorem getPost_spec (s : DataStore) (slug : String) :
    ((PostController.getPost slug s).1.status = k404NotFound ↔ ∀ p ∈ s.posts, p.slug ≠ slug)
    ∧ ((∀ p ∈ s.posts, p.slug ≠ slug) →
        PostController.getPost slug s = (⟨404, Body.noBody⟩, s))
    ∧ ((∃ p ∈ s.posts, p.slug = slug) →
        ∃ pre p post, s.posts = pre ++ p :: post ∧ (∀ q ∈ pre, q.slug ≠ slug) ∧ p.slug = slug
          ∧ PostController.getPost slug s
              = (⟨200, Body.post p.id p.title p.content p.views⟩, s))
    ∧ (PostController.getPost slug s).2 = s := by
  have hnone : (∀ p ∈ s.posts, p.slug ≠ slug) →
      PostController.getPost slug s = (⟨404, Body.noBody⟩, s) := by
    intro h
    simp only [PostController.getPost, getPostLoop_none slug s.posts h]
    rfl
  have hsome : (∃ p ∈ s.posts, p.slug = slug) →
      ∃ pre p post, s.posts = pre ++ p :: post ∧ (∀ q ∈ pre, q.slug ≠ slug) ∧ p.slug = slug
        ∧ PostController.getPost slug s
            = (⟨200, Body.post p.id p.title p.content p.views⟩, s) := by
    intro h
    obtain ⟨pre, p, post, hl, hpre, hp⟩ :=
      exists_first_split (fun q : Post => q.slug = slug) _ h
    refine ⟨pre, p, post, hl, hpre, hp, ?_⟩
    simp only [PostController.getPost, hl, getPostLoop_split slug pre p post hpre hp]
    rfl
  refine ⟨?_, hnone, hsome, getPost_store slug s⟩
  by_cases h : ∀ p ∈ s.posts, p.slug ≠ slug
  · rw [hnone h]
    exact ⟨fun _ => h, fun _ => rfl⟩
  · obtain ⟨pre, p, post, _, _, _, heq⟩ := hsome (not_forall_ne_exists _ _ h)
    rw [heq]
    refine ⟨fun h3 => ?_, fun h3 => absurd h3 h⟩
    have h4 : (200 : Nat) = k404NotFound := h3
    exact absurd h4 (by decide)

/-- C12: the example scenario, from the initial store: `createCategory` with name "Tech"
returns id 1 and name "Tech"; `createPost` with title "Hello World" and content "Body"
returns id 1 and slug "hello-world"; `getPost` with "hello-world" before the publish
answers with content "Body" and views 0; `getPosts` returns the empty list; and after
`publish` on id 1 `getPosts` returns the one entry with id 1, title "Hello World" and slug
"hello-world". -/
theorem example_scenario (u : Indeterminate) :
    run [Call.createCategory (some { name := some "Tech" }),
         Call.createPost u (some { title := some "Hello World", content := some "Body" }),
         Call.getPost "hello-world",
         Call.getPosts,
         Call.publish 1,
         Call.getPosts] DataStore.initial
      = some ([⟨200, Body.category 1 "Tech"⟩,
               ⟨200, Body.postCreated 1 "hello-world"⟩,
               ⟨200, Body.post 1 "Hello World" "Body" 0⟩,
               ⟨200, Body.posts []⟩,
               ⟨200, Body.status "published"⟩,
               ⟨200, Body.posts [⟨1, "Hello World", "hello-world"⟩]⟩],
              { categories := [⟨1, "Tech"⟩],
                posts := [{ id := 1, author_id := u.author_id, title := "Hello World",
                            slug := "hello-world", content := "Body", is_published := true,
                            created_at := "", tags := [], category_id := u.category_id }],
                nextCategoryId := 2, nextPostId := 2 }) := by
  rfl

/-- C14: for every store and post id, `getComments` answers 200 with exactly the comments
of the store whose `post_id` is the given id, in the order of the store, each as its id,
user id and content; it has no failing path, and the store is unchanged. -/
theorem getComments_spec (s : DataStore) (id : Int) :
    CommentController.getComments id s
        = (⟨200, Body.comments
              ((s.comments.filter (fun c => decide (c.post_id = id))).map
                CommentItem.ofComment)⟩, s)
    ∧ List.Sublist (s.comments.filter (fun c => decide (c.post_id = id))) s.comments
    ∧ (CommentController.getComments id s).2 = s := by
  refine ⟨?_, List.filter_sublist _, rfl⟩
  simp only [CommentController.getComments, getCommentsLoop_eq, List.nil_append]
  rfl

/-- C15, as stated, fails: `createComment` on the post id 5 from the initial store gives
a reachable store that holds no post with id 5, and `getComments` on 5 returns the
comment, not the empty list. -/
theorem getComments_without_post :
    Reachable orphanCommentStore
    ∧ (∀ p ∈ orphanCommentStore.posts, p.id ≠ 5)
    ∧ CommentController.getComments 5 orphanCommentStore
        = (⟨200, Body.comments [⟨1, 1, "hi"⟩]⟩, orphanCommentStore)
    ∧ (CommentController.getComments 5 orphanCommentStore).1 ≠ ⟨200, Body.comments []⟩ := by
  refine ⟨⟨orphanCommentCalls, [⟨200, Body.commentCreated 1 5⟩], by decide⟩, ?_, by decide,
    by decide⟩
  intro p hp
  cases hp

/-- C15, amended: for every store and post id, `getComments` returns the empty list
exactly when the store holds no comment whose `post_id` is that id; whether the store
holds a post with that id plays no role. -/
theorem getComments_empty_iff (s : DataStore) (id : Int) :
    ((CommentController.getComments id s).1 = ⟨200, Body.comments []⟩
      ↔ ∀ c ∈ s.comments, c.post_id ≠ id)
    ∧ ((∀ c ∈ s.comments, c.post_id ≠ id) →
        ∀ posts : List Post,
          CommentController.getComments id { s with posts := posts }
            = (⟨200, Body.comments []⟩, { s with posts := posts })) := by
  have key : ∀ cs : List Comment,
      (cs.filter (fun c => decide (c.post_id = id))).map CommentItem.ofComment = []
        ↔ ∀ c ∈ cs, c.post_id ≠ id := by
    intro cs
    rw [List.map_eq_nil_iff, List.filter_eq_nil_iff]
    simp only [decide_eq_true_eq]
  refine ⟨?_, ?_⟩
  · rw [(getComments_response s id)]
    constructor
    · intro h
      have h2 : Body.comments ((s.comments.filter
          (fun c => decide (c.post_id = id))).map CommentItem.ofComment) = Body.comments [] :=
        congrArg HttpResponse.body h
      injection h2 with h3
      exact (key s.comments).mp h3
    · intro h
      rw [(key s.comments).mpr h]
  · intro h posts
    simp only [CommentController.getComments, getCommentsLoop_eq, List.nil_append,
      (key s.comments).mpr h]
    rfl

/-- C16: for every store whose user counter can still be incremented and every body with
an email and a password, `registerUser` answers 200 with `userId` the previous
`nextUserId`, and appends exactly one user with that id, username "user", role "author",
empty bio, and the given email and password stored as they are; no user of the store is
looked at, so an existing user with the same email does not matter; nothing else changes
but `nextUserId`, which advances by one. -/
theorem registerUser_spec (s : DataStore) (j : JsonObject) (email password : String)
    (h : s.nextUserId ≠ INT_MAX) :
    AuthController.registerUser (some { j with email := some email, password := some password }) s
      = some (⟨200, Body.registered "registered" s.nextUserId⟩,
          { s with
            users := s.users ++
              [{ id := s.nextUserId, username := "user", email := email,
                 password_hash := password, role := "author", bio := "" }]
            nextUserId := s.nextUserId + 1 }) := by
  simp only [AuthController.registerUser, if_neg h, asString, newHttpJsonResponse, k200OK,
    add_sub_cancel_right]

theorem registerUser_spec_witness :
    AuthController.registerUser
        (some { ({} : JsonObject) with email := some "a@b.c", password := some "other" })
        oneUserStore
      = some (⟨200, Body.registered "registered" oneUserStore.nextUserId⟩,
          { oneUserStore with
            users := oneUserStore.users ++
              [{ id := oneUserStore.nextUserId, username := "user", email := "a@b.c",
                 password_hash := "other", role := "author", bio := "" }]
            nextUserId := oneUserStore.nextUserId + 1 }) :=
  registerUser_spec oneUserStore {} "a@b.c" "other" (by decide)

/-- C17: for every store, id and body (a missing body included), `updateUser` answers 404
exactly when no user has that id, and then the store is unchanged; otherwise it answers
200 and changes at most the bio of the first user with that id, to the body's bio when
the body has one and not at all otherwise; that user's other fields, the other users, the
other collections and all counters stay, whatever else the body holds. -/
theorem updateUser_spec (s : DataStore) (id : Int) (json : Option JsonObject) :
    ((UserController.updateUser json id s).1.status = k404NotFound
      ↔ ∀ u ∈ s.users, u.id ≠ id)
    ∧ ((∀ u ∈ s.users, u.id ≠ id) →
        UserController.updateUser json id s = (⟨404, Body.noBody⟩, s))
    ∧ ((∃ u ∈ s.users, u.id = id) →
        ∃ pre u post, s.users = pre ++ u :: post ∧ (∀ q ∈ pre, q.id ≠ id) ∧ u.id = id
          ∧ UserController.updateUser json id s
              = (⟨200, Body.status "updated"⟩,
                 { s with
                   users := pre ++
                     { u with bio := (json.bind (fun j => j.bio)).getD u.bio } :: post })) := by
  have hnone : (∀ u ∈ s.users, u.id ≠ id) →
      UserController.updateUser json id s = (⟨404, Body.noBody⟩, s) := by
    intro h
    simp only [UserController.updateUser, updateUserLoop_none json id s.users h]
    rfl
  have hsome : (∃ u ∈ s.users, u.id = id) →
      ∃ pre u post, s.users = pre ++ u :: post ∧ (∀ q ∈ pre, q.id ≠ id) ∧ u.id = id
        ∧ UserController.updateUser json id s
            = (⟨200, Body.status "updated"⟩,
               { s with
                 users := pre ++
                   { u with bio := (json.bind (fun j => j.bio)).getD u.bio } :: post }) := by
    intro h
    obtain ⟨pre, u, post, hl, hpre, hu⟩ := exists_first_split (fun q : User => q.id = id) _ h
    refine ⟨pre, u, post, hl, hpre, hu, ?_⟩
    simp only [UserController.updateUser, hl, updateUserLoop_split json id pre u post hpre hu]
    rfl
  refine ⟨?_, hnone, hsome⟩
  by_cases h : ∀ u ∈ s.users, u.id ≠ id
  · rw [hnone h]
    exact ⟨fun _ => h, fun _ => rfl⟩
  · obtain ⟨pre, u, post, _, _, _, heq⟩ := hsome (not_forall_ne_exists _ _ h)
    rw [heq]
    refine ⟨fun h3 => ?_, fun h3 => absurd h3 h⟩
    have h4 : (200 : Nat) = k404NotFound := h3
    exact absurd h4 (by decide)

/-- C20: `updatePost` never changes a slug.  For every store, id and body, the posts
after the call carry, position by position, the ids and slugs they carried before, also
when the body gives a new title; so `getPost` with any slug finds the post of the same id
as before the call (or none, as before), and answers 404 for every slug that no post
carried before the call, the slug of a new title included.  In the example store, after
the title of post 1 is changed to "New Title", the post is still found under
"hello-world" and not under "new-title". -/
theorem updatePost_keeps_slug (s : DataStore) (id : Int) (json : Option JsonObject) :
    (PostController.updatePost json id s).2.posts.map (fun p => (p.id, p.slug))
        = s.posts.map (fun p => (p.id, p.slug))
    ∧ (∀ slug : String,
        (PostController.getPostLoop slug (PostController.updatePost json id s).2.posts).map
            (fun p => p.id)
          = (PostController.getPostLoop slug s.posts).map (fun p => p.id))
    ∧ (∀ slug : String, (∀ q ∈ s.posts, q.slug ≠ slug) →
        PostController.getPost slug (PostController.updatePost json id s).2
          = (⟨404, Body.noBody⟩, (PostController.updatePost json id s).2))
    ∧ PostController.getPost "hello-world"
          (PostController.updatePost (some { title := some "New Title" }) 1 exampleStore).2
        = (⟨200, Body.post 1 "New Title" "Body" 0⟩,
           (PostController.updatePost (some { title := some "New Title" }) 1 exampleStore).2)
    ∧ (PostController.getPost (slugify "New Title")
          (PostController.updatePost (some { title := some "New Title" }) 1 exampleStore).2).1
        = ⟨404, Body.noBody⟩ := by
  have hmap := updatePost_id_slug json id s
  refine ⟨hmap, fun slug => getPostLoop_congr slug _ _ hmap, ?_, by decide, by decide⟩
  intro slug h
  have hnone : PostController.getPostLoop slug (PostController.updatePost json id s).2.posts
      = none := by
    apply getPostLoop_none
    intro q hq hslug
    have h1 : (q.id, q.slug) ∈ (PostController.updatePost json id s).2.posts.map
        (fun p => (p.id, p.slug)) := List.mem_map_of_mem (fun p => (p.id, p.slug)) hq
    rw [hmap] at h1
    obtain ⟨q0, hq0, heq⟩ := List.mem_map.mp h1
    have h2 : q0.slug = q.slug := congrArg Prod.snd heq
    exact h q0 hq0 (by rw [h2, hslug])
  simp only [PostController.getPost, hnone]
  rfl

/-- C21: the response of `getUser` does not depend on any stored password or email.  For
every id and every two stores that differ only in the `email` and `password_hash` fields
of their users, `getUser` gives the same response, status and body, on both; the
response is 404 exactly when no user has the id, and otherwise 200 with the id, username,
role and bio of the first user with the id; the store is unchanged. -/
theorem getUser_ignores_secrets (s1 s2 : DataStore) (id : Int)
    (h : s1.withoutSecrets = s2.withoutSecrets) :
    (UserController.getUser id s1).1 = (UserController.getUser id s2).1
    ∧ ((UserController.getUser id s1).1.status = k404NotFound ↔ ∀ u ∈ s1.users, u.id ≠ id)
    ∧ ((∀ u ∈ s1.users, u.id ≠ id) →
        UserController.getUser id s1 = (⟨404, Body.noBody⟩, s1))
    ∧ ((∃ u ∈ s1.users, u.id = id) →
        ∃ pre u post, s1.users = pre ++ u :: post ∧ (∀ q ∈ pre, q.id ≠ id) ∧ u.id = id
          ∧ UserController.getUser id s1
              = (⟨200, Body.user u.id u.username u.role u.bio⟩, s1))
    ∧ (UserController.getUser id s1).2 = s1
    ∧ (UserController.getUser id s2).2 = s2 := by
  have husers : s1.users.map userWithoutSecrets = s2.users.map userWithoutSecrets :=
    congrArg DataStore.users h
  have hnone : (∀ u ∈ s1.users, u.id ≠ id) →
      UserController.getUser id s1 = (⟨404, Body.noBody⟩, s1) := by
    intro hn
    simp only [UserController.getUser, getUserLoop_none id s1.users hn]
    rfl
  have hsome : (∃ u ∈ s1.users, u.id = id) →
      ∃ pre u post, s1.users = pre ++ u :: post ∧ (∀ q ∈ pre, q.id ≠ id) ∧ u.id = id
        ∧ UserController.getUser id s1
            = (⟨200, Body.user u.id u.username u.role u.bio⟩, s1) := by
    intro hex
    obtain ⟨pre, u, post, hl, hpre, hu⟩ :=
      exists_first_split (fun q : User => q.id = id) _ hex
    refine ⟨pre, u, post, hl, hpre, hu, ?_⟩
    simp only [UserController.getUser, hl, getUserLoop_split id pre u post hpre hu]
    rfl
  refine ⟨?_, ?_, hnone, hsome, getUser_store id s1, getUser_store id s2⟩
  · rw [getUser_response, getUser_response, ← getUserLoop_withoutSecrets,
      ← getUserLoop_withoutSecrets, husers]
  · by_cases hn : ∀ u ∈ s1.users, u.id ≠ id
    · rw [hnone hn]
      exact ⟨fun _ => hn, fun _ => rfl⟩
    · obtain ⟨pre, u, post, _, _, _, heq⟩ := hsome (not_forall_ne_exists _ _ hn)
      rw [heq]
      refine ⟨fun h3 => ?_, fun h3 => absurd h3 hn⟩
      have h4 : (200 : Nat) = k404NotFound := h3
      exact absurd h4 (by decide)

theorem getUser_ignores_secrets_witness :
    (UserController.getUser 1 oneUserStore).1
        = (UserController.getUser 1 oneUserStoreOtherSecrets).1
    ∧ ((UserController.getUser 1 oneUserStore).1.status = k404NotFound
        ↔ ∀ u ∈ oneUserStore.users, u.id ≠ 1)
    ∧ ((∀ u ∈ oneUserStore.users, u.id ≠ 1) →
        UserController.getUser 1 oneUserStore = (⟨404, Body.noBody⟩, oneUserStore))
    ∧ ((∃ u ∈ oneUserStore.users, u.id = 1) →
        ∃ pre u post, oneUserStore.users = pre ++ u :: post ∧ (∀ q ∈ pre, q.id ≠ 1) ∧ u.id = 1
          ∧ UserController.getUser 1 oneUserStore
              = (⟨200, Body.user u.id u.username u.role u.bio⟩, oneUserStore))
    ∧ (UserController.getUser 1 oneUserStore).2 = oneUserStore
    ∧ (UserController.getUser 1 oneUserStoreOtherSecrets).2 = oneUserStoreOtherSecrets :=
  getUser_ignores_secrets oneUserStore oneUserStoreOtherSecrets 1 (by decide)

end api
